import Mathlib

/-!
# Verification of `data_preprocessor.py` (pyspark_tutorial)

A shallow embedding of the `DataPreprocessor` class and the Spark/pandas
primitives it delegates to.  A dataframe is modelled as a schema (an ordered
list of column name / declared-dtype pairs, dtypes being the strings that
`DataFrame.dtypes` reports: `"string"`, `"int"`, `"double"`, `"vector"`, ...)
together with a list of rows.  Cell values are strings, exact numbers, or
numeric vectors; the engine's floating-point representation is abstracted by
exact integers, which is adequate because the code under study never performs
arithmetic on cell values, it only moves them around, strips strings, assigns
integer category codes and builds one-hot/assembled vectors.

Spark executes transformations lazily; the embedding is eager, i.e. a
dataframe value stands for the materialised result of the plan, and an
operation fails exactly when materialising its result would fail.  Each
mutating method of the Python class becomes a function
`PrepState → Except String PrepState`; the `assert` statements of the source
become `Except.error` results.
-/

/-- A cell value: a string, a number (exact; stands for both `int` and
`double` cells and for the `double` category codes produced by
`StringIndexer`), or a numeric vector (one-hot vectors and assembled feature
vectors). -/
inductive Value where
  | str (s : String)
  | num (x : Int)
  | vec (xs : List Int)
  deriving Repr, DecidableEq

/-- A dataframe: ordered schema of (column name, declared dtype string)
pairs, and rows of cell values aligned positionally with the schema. -/
structure DataFrame where
  schema : List (String × String)
  rows : List (List Value)
  deriving Repr, DecidableEq

/-- The column names of a dataframe, in schema order. -/
def colNames (df : DataFrame) : List String :=
  df.schema.map Prod.fst

/-- Look up the cell of column `c` in a row, walking schema and row in
parallel (first occurrence of the name wins, as column resolution does). -/
def rowGet : List (String × String) → List Value → String → Option Value
  | (n, _) :: sch, v :: vs, c => if n = c then some v else rowGet sch vs c
  | _, _, _ => none

/-- `rowGet` as a failing computation. -/
def rowGetE (sch : List (String × String)) (r : List Value) (c : String) :
    Except String Value :=
  match rowGet sch r c with
  | some v => Except.ok v
  | none => Except.error "cannot resolve column"

/-- The declared dtype of the first column named `c`. -/
def findType : List (String × String) → String → Option String
  | (n, t) :: sch, c => if n = c then some t else findType sch c
  | [], _ => none

/-- All values of column `c`, top to bottom; fails if some row cannot
resolve the column. -/
def colValuesE (df : DataFrame) (c : String) : Except String (List Value) :=
  df.rows.mapM (fun r => rowGetE df.schema r c)

/-- All values of column `c` as an `Option`. -/
def colValues (df : DataFrame) (c : String) : Option (List Value) :=
  (colValuesE df c).toOption

/-- Well-formedness: every row has exactly one cell per schema column. -/
def DataFrame.WF (df : DataFrame) : Bool :=
  df.rows.all (fun r => r.length = df.schema.length)

/-- Python's `str.strip(chars)`: remove from both ends every leading and
trailing character that occurs in `chars`. -/
def pyStrip (chars : String) (x : String) : String :=
  String.mk
    (((x.toList.dropWhile (fun a => a ∈ chars.toList)).reverse.dropWhile
        (fun a => a ∈ chars.toList)).reverse)

/-- Does `needle` occur at the head of `hay`? -/
def listLeads : List Char → List Char → Bool
  | [], _ => true
  | _ :: _, [] => false
  | a :: as, b :: bs => a = b && listLeads as bs

/-- Does `needle` occur contiguously anywhere in `hay`?  (Python's
`needle in hay` on strings.) -/
def listHasSeq : List Char → List Char → Bool
  | [], needle => listLeads needle []
  | c :: t, needle => listLeads needle (c :: t) || listHasSeq t needle

/-- Python's substring containment `t in s`. -/
def strContains (s t : String) : Bool :=
  listHasSeq s.toList t.toList

/-- Python's `s.endswith(t)`. -/
def strEndsWith (s t : String) : Bool :=
  listLeads t.toList.reverse s.toList.reverse

/-- Deduplicate, keeping first occurrences, skipping anything in `seen`. -/
def dedupBy {α : Type} [DecidableEq α] (seen : List α) : List α → List α
  | [] => []
  | x :: xs => if x ∈ seen then dedupBy seen xs else x :: dedupBy (x :: seen) xs

/-- Distinct elements of a list, first occurrences first. -/
def distinctL {α : Type} [DecidableEq α] (xs : List α) : List α :=
  dedupBy [] xs

/-- Number of occurrences of `v` in `xs`. -/
def countOcc {α : Type} [DecidableEq α] (xs : List α) (v : α) : Nat :=
  (xs.filter (fun x => decide (x = v))).length

/-- Insertion into a list sorted by the boolean relation `le`. -/
def insertBy {α : Type} (le : α → α → Bool) (x : α) : List α → List α
  | [] => [x]
  | y :: ys => if le x y then x :: y :: ys else y :: insertBy le x ys

/-- Insertion sort by the boolean relation `le`. -/
def sortBy {α : Type} (le : α → α → Bool) : List α → List α
  | [] => []
  | x :: xs => insertBy le x (sortBy le xs)

/-- Index of the first occurrence of `v`. -/
def idxOf? {α : Type} [DecidableEq α] : List α → α → Option Nat
  | [], _ => none
  | x :: xs, v => if x = v then some 0 else (idxOf? xs v).map (· + 1)

/-- Lexicographic comparison of character lists by code point. -/
def charListLe : List Char → List Char → Bool
  | [], _ => true
  | _ :: _, [] => false
  | a :: as, b :: bs =>
    if a.toNat < b.toNat then true
    else if b.toNat < a.toNat then false
    else charListLe as bs

/-- Lexicographic string comparison by code point (the engine's
alphabetical order). -/
def strLeB (a b : String) : Bool :=
  charListLe a.toList b.toList

/-- The label vocabulary a `StringIndexer` fits from the input column's
values: distinct values ordered by descending frequency, ties broken
alphabetically (Spark's default `frequencyDesc` order). -/
def indexerLabels (xs : List String) : List String :=
  sortBy
    (fun a b =>
      decide (countOcc xs b < countOcc xs a) ||
        (decide (countOcc xs a = countOcc xs b) && strLeB a b))
    (distinctL xs)

/-- Category codes of `xs` under the vocabulary `labels`; `none` when some
value is absent from the vocabulary (Spark raises on unseen labels). -/
def indexCodes (labels : List String) (xs : List String) : Option (List Value) :=
  xs.mapM (fun v => (idxOf? labels v).map (fun n => Value.num (Int.ofNat n)))

/-- Append a column `name` of dtype `dtype`, computing each new cell from
its row; fails if any row's computation fails. -/
def appendColumn (df : DataFrame) (name dtype : String)
    (f : List Value → Except String Value) : Except String DataFrame := do
  let rows' ← df.rows.mapM (fun r => do
    let v ← f r
    Except.ok (r ++ [v]))
  Except.ok ⟨df.schema ++ [(name, dtype)], rows'⟩

/-- Replace the dtype of the first column named `c` (a `withColumn` over an
existing column re-declares its type; a udf's default return type is
`string`). -/
def schemaSetString : List (String × String) → String → List (String × String)
  | [], _ => []
  | (n, t) :: sch, c =>
    if n = c then (n, "string") :: sch else (n, t) :: schemaSetString sch c

/-- The strip udf on one cell: the cell must hold a string (the udf's
`x.strip` fails otherwise). -/
def stripCellE (chars : String) (v : Value) : Except String Value :=
  match v with
  | Value.str s => Except.ok (Value.str (pyStrip chars s))
  | _ => Except.error "strip udf applied to a non-string value"

/-- Replace the cell of the first column named `col` by its stripped value. -/
def stripRowCells (chars : String) :
    List (String × String) → List Value → String → Except String (List Value)
  | (n, _) :: sch, v :: vs, col =>
    if n = col then do
      let v' ← stripCellE chars v
      Except.ok (v' :: vs)
    else do
      let vs' ← stripRowCells chars sch vs col
      Except.ok (v :: vs')
  | _, _, _ => Except.error "cannot resolve column"

/-- `df.withColumn(col, udf(lambda x: x.strip(chars))(col))`. -/
def stripCol (df : DataFrame) (col : String) (chars : String) :
    Except String DataFrame := do
  let rows' ← df.rows.mapM (fun r => stripRowCells chars df.schema r col)
  Except.ok ⟨schemaSetString df.schema col, rows'⟩

/-- A fitted `StringIndexer`: input column, output column and the vocabulary
fitted on the train dataset. -/
structure SIModel where
  inputCol : String
  outputCol : String
  labels : List String
  deriving Repr, DecidableEq

/-- Fit a `StringIndexer` on `df`: read the input column (which must hold
strings) and record the frequency-ordered vocabulary. -/
def fitStringIndexer (df : DataFrame) (inCol outCol : String) :
    Except String SIModel := do
  let vs ← colValuesE df inCol
  let xs ← vs.mapM (fun v =>
    match v with
    | Value.str s => Except.ok s
    | _ => Except.error "StringIndexer input is not a string column")
  Except.ok ⟨inCol, outCol, indexerLabels xs⟩

/-- Apply a fitted `StringIndexer`: append the code column; fails if the
output column already exists or some value is outside the vocabulary. -/
def siTransform (m : SIModel) (df : DataFrame) : Except String DataFrame :=
  if m.outputCol ∈ colNames df then
    Except.error "StringIndexer output column already exists"
  else
    appendColumn df m.outputCol "double" (fun r => do
      let v ← rowGetE df.schema r m.inputCol
      match v with
      | Value.str s =>
        match idxOf? m.labels s with
        | some n => Except.ok (Value.num (Int.ofNat n))
        | none => Except.error "Unseen label"
      | _ => Except.error "StringIndexer input is not a string column")

/-- `Pipeline(stages=...).fit(train)`: fit each stage in turn on the train
dataframe as transformed by the previously fitted stages. -/
def pipelineFit : List (String × String) → DataFrame →
    Except String (List SIModel)
  | [], _ => Except.ok []
  | (i, o) :: rest, df => do
    let m ← fitStringIndexer df i o
    let df' ← siTransform m df
    let ms ← pipelineFit rest df'
    Except.ok (m :: ms)

/-- `PipelineModel.transform`: apply the fitted stages in order. -/
def pipelineTransform (ms : List SIModel) (df : DataFrame) :
    Except String DataFrame :=
  ms.foldlM (fun d m => siTransform m d) df

/-- A fitted `OneHotEncoder`: per input column its output column and the
category count observed on the train dataset. -/
structure OHEModel where
  cols : List (String × String × Nat)
  deriving Repr, DecidableEq

/-- The category count `OneHotEncoder.fit` derives from a code column:
one more than the largest code; codes must be non-negative numbers. -/
def oheSize (vs : List Value) : Except String Nat := do
  let cs ← vs.mapM (fun v =>
    match v with
    | Value.num x => if x < 0 then Except.error "negative category code"
        else Except.ok x.toNat
    | _ => Except.error "OneHotEncoder input is not numeric")
  match cs with
  | [] => Except.ok 0
  | c :: cs' => Except.ok (cs'.foldl Nat.max c + 1)

/-- `OneHotEncoder(...).fit(train)`. -/
def fitOHE (df : DataFrame) (pairs : List (String × String)) :
    Except String OHEModel := do
  let cols ← pairs.mapM (fun p => do
    let vs ← colValuesE df p.1
    let sz ← oheSize vs
    Except.ok (p.1, p.2, sz))
  Except.ok ⟨cols⟩

/-- The one-hot vector for code `c` with `size` categories and `dropLast`
(Spark's default): length `size - 1`, the last category encodes as all
zeroes. -/
def oneHotVec (size : Nat) (c : Nat) : List Int :=
  (List.range (size - 1)).map (fun i => if i = c then 1 else 0)

/-- Apply a fitted `OneHotEncoder`: append one vector column per input
column; a code at or above the fitted size is invalid (`handleInvalid`
defaults to erroring). -/
def oheTransform (m : OHEModel) (df : DataFrame) : Except String DataFrame :=
  m.cols.foldlM
    (fun d c =>
      if c.2.1 ∈ colNames d then
        Except.error "OneHotEncoder output column already exists"
      else
        appendColumn d c.2.1 "vector" (fun r => do
          let v ← rowGetE d.schema r c.1
          match v with
          | Value.num x =>
            if 0 ≤ x ∧ x.toNat < c.2.2 then
              Except.ok (Value.vec (oneHotVec c.2.2 x.toNat))
            else Except.error "invalid category code"
          | _ => Except.error "OneHotEncoder input is not numeric"))
    df

/-- The slots a cell contributes to an assembled vector: a number is one
slot, a vector contributes its slots, anything else is unsupported. -/
def assembleSlots (v : Value) : Except String (List Int) :=
  match v with
  | Value.num x => Except.ok [x]
  | Value.vec xs => Except.ok xs
  | Value.str _ => Except.error "VectorAssembler does not support string columns"

/-- `VectorAssembler(inputCols=cols, outputCol=out).transform(df)`. -/
def vectorAssemble (df : DataFrame) (cols : List String) (out : String) :
    Except String DataFrame :=
  if out ∈ colNames df then
    Except.error "VectorAssembler output column already exists"
  else
    appendColumn df out "vector" (fun r => do
      let parts ← cols.mapM (fun c => do
        let v ← rowGetE df.schema r c
        assembleSlots v)
      Except.ok (Value.vec parts.flatten))

/-- `df.select(cols)`. -/
def selectCols (df : DataFrame) (cols : List String) :
    Except String DataFrame := do
  let schema' ← cols.mapM (fun c =>
    match findType df.schema c with
    | some t => Except.ok (c, t)
    | none => Except.error "cannot resolve column")
  let rows' ← df.rows.mapM (fun r => cols.mapM (fun c => rowGetE df.schema r c))
  Except.ok ⟨schema', rows'⟩

/-- `df.withColumnRenamed(old, new)`. -/
def renameCol (df : DataFrame) (old new : String) : DataFrame :=
  ⟨df.schema.map (fun p => if p.1 = old then (new, p.2) else p), df.rows⟩

/-- `_select_to_model`: keep only the target and `features` columns and
rename the target to `label`. -/
def selectToModel (df : DataFrame) (targetCol : String) :
    Except String DataFrame := do
  let d ← selectCols df [targetCol, "features"]
  Except.ok (renameCol d targetCol "label")

/-- The state held by a `DataPreprocessor` instance. -/
structure PrepState where
  train_df : DataFrame
  test_df : DataFrame
  train_encoded_df : Option DataFrame
  test_encoded_df : Option DataFrame
  deriving Repr, DecidableEq

/-- The fixed suffixes of the class. -/
def one_hot_suffix : String := "_vec"

/-- The suffix appended to string-indexed columns. -/
def indexed_suffix : String := "_cat"

/-- `DataPreprocessor.__init__`: requires identical train/test schemas. -/
def DataPreprocessor.mkState (train_df test_df : DataFrame) :
    Except String PrepState :=
  if train_df.schema = test_df.schema then
    Except.ok ⟨train_df, test_df, none, none⟩
  else
    Except.error "Train and test dataframes must have the same schema"

/-- `_get_cols_by_types`: names of the columns whose dtype is listed, in
schema order, computed on train and test and asserted equal. -/
def getColsByTypes (s : PrepState) (types : List String) :
    Except String (List String) :=
  let train_cols := (s.train_df.schema.filter (fun p => p.2 ∈ types)).map Prod.fst
  let test_cols := (s.test_df.schema.filter (fun p => p.2 ∈ types)).map Prod.fst
  if train_cols = test_cols then Except.ok train_cols
  else Except.error "Columns in train and test df should be the same"

/-- The `factors` property: the string-typed columns. -/
def factorsE (s : PrepState) : Except String (List String) :=
  getColsByTypes s ["string"]

/-- The `numeric_columns` property: the columns of dtype `double` or `int`. -/
def numericColumnsE (s : PrepState) : Except String (List String) :=
  getColsByTypes s ["double", "int"]

/-- `_assert_are_factors`. -/
def assertAreFactors (s : PrepState) (columns : List String) :
    Except String Unit := do
  let facs ← factorsE s
  if columns.all (fun c => decide (c ∈ facs)) then Except.ok ()
  else Except.error "Some column is not a factor"

/-- One iteration of the `strip_columns` loop: strip one column in the held
train and test dataframes. -/
def stripPair (chars : String) (st : PrepState) (c : String) :
    Except String PrepState := do
  let tr ← stripCol st.train_df c chars
  let te ← stripCol st.test_df c chars
  Except.ok { st with train_df := tr, test_df := te }

/-- `strip_columns`: assert the columns are factors, then strip each listed
column (with the given characters plus a space) in train and test. -/
def stripColumnsOp (s : PrepState) (columns : List String) (to_strip : String) :
    Except String PrepState := do
  assertAreFactors s columns
  columns.foldlM (stripPair (to_strip ++ " ")) s

/-- `string_index`: assert factors, fit one indexer per column in a pipeline
on the train dataframe, then transform train and test with the fitted
models. -/
def stringIndexOp (s : PrepState) (columns : List String) (suffix : String) :
    Except String PrepState := do
  assertAreFactors s columns
  let ms ← pipelineFit (columns.map (fun c => (c, c ++ suffix))) s.train_df
  let tr ← pipelineTransform ms s.train_df
  let te ← pipelineTransform ms s.test_df
  Except.ok { s with train_df := tr, test_df := te }

/-- `one_hot_encode`: the encoder is an estimator, so `_fit_and_transform`
fits it on the train dataframe and applies the fitted model to both. -/
def oneHotEncodeOp (s : PrepState) (columns : List String) (suffix : String) :
    Except String PrepState := do
  let m ← fitOHE s.train_df (columns.map (fun c => (c, c ++ suffix)))
  let tr ← oheTransform m s.train_df
  let te ← oheTransform m s.test_df
  Except.ok { s with train_df := tr, test_df := te }

/-- `assemble_features`: the assembler has no `fit`, so `_fit_and_transform`
transforms train and test directly. -/
def assembleFeaturesOp (s : PrepState) (columns : List String) (out : String) :
    Except String PrepState := do
  let tr ← vectorAssemble s.train_df columns out
  let te ← vectorAssemble s.test_df columns out
  Except.ok { s with train_df := tr, test_df := te }

/-- `_one_hot_encode_columns`: indexed names of every factor except the
target. -/
def oneHotEncodeColumnsE (s : PrepState) (targetCol : String) :
    Except String (List String) := do
  let facs ← factorsE s
  Except.ok ((facs.filter (fun f => decide ¬f = targetCol)).map
    (fun f => f ++ indexed_suffix))

/-- `_columns_to_assemble`: numeric columns other than the target and not
ending in the indexed suffix, then every train column whose name contains
`indexed_suffix + one_hot_suffix`. -/
def columnsToAssembleE (s : PrepState) (targetCol : String) :
    Except String (List String) := do
  let nums ← numericColumnsE s
  let numeric := nums.filter
    (fun c => decide ¬c = targetCol && !strEndsWith c indexed_suffix)
  let one_hot_encoded :=
    (colNames s.train_df).filter
      (fun c => strContains c (indexed_suffix ++ one_hot_suffix))
  Except.ok (numeric ++ one_hot_encoded)

/-- Step 1 of `prepare_to_model`: strip all factor columns. -/
def stripStep (s : PrepState) (to_strip : String) : Except String PrepState := do
  let facs ← factorsE s
  stripColumnsOp s facs to_strip

/-- Step 2: string-index all factor columns with the indexed suffix. -/
def indexStep (s : PrepState) : Except String PrepState := do
  let facs ← factorsE s
  stringIndexOp s facs indexed_suffix

/-- Step 3: one-hot encode the indexed factors, except the target. -/
def oneHotStep (s : PrepState) (targetCol : String) : Except String PrepState := do
  let cols ← oneHotEncodeColumnsE s targetCol
  oneHotEncodeOp s cols one_hot_suffix

/-- Step 4: assemble the feature vector. -/
def assembleStep (s : PrepState) (targetCol : String) :
    Except String PrepState := do
  let cols ← columnsToAssembleE s targetCol
  assembleFeaturesOp s cols "features"

/-- Steps 5-6: pick the label column name (the indexed name when the target
is a factor) and project both dataframes to `label` and `features`. -/
def selectStep (s : PrepState) (targetCol : String) : Except String PrepState := do
  let facs ← factorsE s
  let tc := if targetCol ∈ facs then targetCol ++ indexed_suffix else targetCol
  let tr ← selectToModel s.train_df tc
  let te ← selectToModel s.test_df tc
  Except.ok { s with train_encoded_df := some tr, test_encoded_df := some te }

/-- Run one step on a state that carries an optional earlier failure: a step
only runs when no earlier step failed, and a failing step leaves the state
of the last completed step (the Python code reassigns
`self.train_df`/`self.test_df` step by step and never rolls back). -/
def runStep (f : PrepState → Except String PrepState)
    (p : PrepState × Option String) : PrepState × Option String :=
  match p.2 with
  | some _ => p
  | none =>
    match f p.1 with
    | Except.ok s' => (s', none)
    | Except.error e => (p.1, some e)

/-- `prepare_to_model` with the partial state it leaves behind on failure. -/
def prepareToModelRun (s : PrepState) (targetCol : String) (to_strip : String) :
    PrepState × Option String :=
  runStep (fun st => selectStep st targetCol)
    (runStep (fun st => assembleStep st targetCol)
      (runStep (fun st => oneHotStep st targetCol)
        (runStep indexStep
          (runStep (fun st => stripStep st to_strip) (s, none)))))

/-- `prepare_to_model` as a failing computation. -/
def prepareToModelE (s : PrepState) (targetCol : String) (to_strip : String) :
    Except String PrepState :=
  match prepareToModelRun s targetCol to_strip with
  | (s', none) => Except.ok s'
  | (_, some e) => Except.error e

/-- Per-value counts of a column, ordered by descending count
(`groupBy(column).count().orderBy('count', ascending=False)`). -/
def groupCount (vs : List Value) : List (Value × Nat) :=
  sortBy (fun a b => decide (b.2 ≤ a.2))
    ((distinctL vs).map (fun v => (v, countOcc vs v)))

/-- Association lookup in a count table. -/
def lookupV (l : List (Value × Nat)) (v : Value) : Option Nat :=
  (l.find? (fun p => decide (p.1 = v))).map Prod.snd

/-- `_get_join_count` materialised: the outer join of the train and test
per-value counts of a column, keyed by the value; a key missing on one side
yields `none` (a null, `NaN` once in pandas) there.  The engine does not
define the row order of an outer join; keys are listed train side first. -/
def joinCountTable (trv tev : List Value) :
    List (Value × Option Nat × Option Nat) :=
  let rc := groupCount trv
  let tc := groupCount tev
  let keys := rc.map Prod.fst ++
    (tc.map Prod.fst).filter (fun v => decide ¬v ∈ rc.map Prod.fst)
  keys.map (fun v => (v, lookupV rc v, lookupV tc v))

/-- `_binarize_pandas` on one cell: a count becomes `1` when positive, and
a missing count (`NaN`) compares as not greater than zero, hence `0`. -/
def binarizeCell (c : Option Nat) : Nat :=
  match c with
  | some n => if 0 < n then 1 else 0
  | none => 0

/-- One table of `explore_factors`: the join-count table with both count
columns binarized, as (value, in_train, in_test). -/
def exploreTable (trv tev : List Value) : List (Value × Nat × Nat) :=
  (joinCountTable trv tev).map (fun p => (p.1, binarizeCell p.2.1, binarizeCell p.2.2))

/-- `explore_factors`: one binarized join-count table per factor column. -/
def exploreFactorsE (s : PrepState) :
    Except String (List (String × List (Value × Nat × Nat))) := do
  let facs ← factorsE s
  facs.mapM (fun c => do
    let trv ← colValuesE s.train_df c
    let tev ← colValuesE s.test_df c
    Except.ok (c, exploreTable trv tev))

/-- The index set of the dictionary built by `explore_numeric_columns`: the
loop runs over exactly `self.numeric_columns` (the per-column descriptive
statistics it stores are numeric summaries of the engine and are not
modelled further, only which columns get one). -/
def exploreNumericKeysE (s : PrepState) : Except String (List String) :=
  numericColumnsE s

/-! ## Basic infrastructure lemmas -/

instance {ε α : Type} [DecidableEq ε] [DecidableEq α] : DecidableEq (Except ε α) := fun a b =>
  match a, b with
  | Except.ok x, Except.ok y =>
    match decEq x y with
    | isTrue h => isTrue (by rw [h])
    | isFalse h => isFalse (fun hh => h (Except.ok.inj hh))
  | Except.ok _, Except.error _ => isFalse (fun hh => Except.noConfusion hh)
  | Except.error _, Except.ok _ => isFalse (fun hh => Except.noConfusion hh)
  | Except.error e, Except.error f =>
    match decEq e f with
    | isTrue h => isTrue (by rw [h])
    | isFalse h => isFalse (fun hh => h (Except.error.inj hh))

theorem mapM_ok_forall2 {α β : Type} (f : α → Except String β) :
    ∀ (xs : List α) (ys : List β), List.mapM f xs = Except.ok ys →
      List.Forall₂ (fun x y => f x = Except.ok y) xs ys := by
  intro xs
  induction xs with
  | nil =>
    intro ys h
    rw [List.mapM_nil] at h
    cases h
    exact List.Forall₂.nil
  | cons a l ih =>
    intro ys h
    rw [List.mapM_cons] at h
    cases hfa : f a with
    | error e => rw [hfa] at h; simp [Bind.bind, Except.bind] at h
    | ok b =>
      rw [hfa] at h
      cases hml : List.mapM f l with
      | error e =>
        rw [hml] at h
        simp [Bind.bind, Except.bind] at h
      | ok bs =>
        rw [hml] at h
        simp only [Bind.bind, Except.bind, pure, Except.pure] at h
        cases h
        exact List.Forall₂.cons hfa (ih bs hml)

theorem forall2_mapM_ok {α β : Type} (f : α → Except String β) :
    ∀ {xs : List α} {ys : List β},
      List.Forall₂ (fun x y => f x = Except.ok y) xs ys →
      List.mapM f xs = Except.ok ys := by
  intro xs ys h
  induction h with
  | nil => rw [List.mapM_nil]; rfl
  | cons hab _ ih =>
    rw [List.mapM_cons, hab, ih]
    rfl

theorem mapM_shift {α β γ : Type} {g' : α → Except String γ} {g : β → Except String γ} :
    ∀ {xs : List α} {ys : List β},
      List.Forall₂ (fun x y => g' x = g y) xs ys →
      List.mapM g' xs = List.mapM g ys := by
  intro xs ys h
  induction h with
  | nil => rfl
  | cons hab _ ih => rw [List.mapM_cons, List.mapM_cons, hab, ih]

theorem colValues_eq_some {df : DataFrame} {c : String} {vs : List Value} :
    colValues df c = some vs ↔ colValuesE df c = Except.ok vs := by
  unfold colValues
  cases h : colValuesE df c with
  | ok ws => simp [Except.toOption, h]
  | error e => simp [Except.toOption, h]

theorem rowGetE_ok {sch : List (String × String)} {r : List Value} {c : String}
    {v : Value} : rowGetE sch r c = Except.ok v ↔ rowGet sch r c = some v := by
  unfold rowGetE
  cases h : rowGet sch r c with
  | some w => simp
  | none => simp

/-- A resolvable column stays resolvable (same cell) after appending columns
to the schema and cells to the row. -/
theorem rowGet_append_of_some {sch : List (String × String)} {r : List Value}
    {c : String} {v : Value} (sch2 : List (String × String)) (r2 : List Value)
    (h : rowGet sch r c = some v) :
    rowGet (sch ++ sch2) (r ++ r2) c = some v := by
  induction sch generalizing r with
  | nil => cases r <;> simp [rowGet] at h
  | cons p sch' ih =>
    cases r with
    | nil => simp [rowGet] at h
    | cons w r' =>
      obtain ⟨n, t⟩ := p
      by_cases hn : n = c
      · subst hn
        simp [rowGet] at h ⊢
        exact h
      · simp [rowGet, hn] at h ⊢
        exact ih h

/-- In a well-formed row, every schema column resolves. -/
theorem rowGet_total {sch : List (String × String)} {r : List Value}
    {c : String} (hlen : r.length = sch.length)
    (hmem : c ∈ sch.map Prod.fst) : ∃ v, rowGet sch r c = some v := by
  induction sch generalizing r with
  | nil => simp at hmem
  | cons p sch' ih =>
    cases r with
    | nil => simp at hlen
    | cons w r' =>
      obtain ⟨n, t⟩ := p
      by_cases hn : n = c
      · subst hn
        exact ⟨w, by simp [rowGet]⟩
      · rw [List.map_cons] at hmem
        rcases List.mem_cons.mp hmem with hmem | hmem
        · exact absurd hmem.symm hn
        · simp at hlen
          obtain ⟨v, hv⟩ := ih (r := r') hlen hmem
          exact ⟨v, by simpa [rowGet, hn]⟩

/-- A freshly appended column resolves to the appended cell. -/
theorem rowGet_append_new {sch : List (String × String)} {r : List Value}
    {c : String} (t : String) (v : Value) (hlen : r.length = sch.length)
    (hc : ¬c ∈ sch.map Prod.fst) :
    rowGet (sch ++ [(c, t)]) (r ++ [v]) c = some v := by
  induction sch generalizing r with
  | nil =>
    cases r with
    | nil => simp [rowGet]
    | cons w r' => simp at hlen
  | cons p sch' ih =>
    cases r with
    | nil => simp at hlen
    | cons w r' =>
      obtain ⟨n, t'⟩ := p
      rw [List.map_cons] at hc
      have hc1 : ¬n = c := fun h => hc (by simp [h])
      have hc2 : ¬c ∈ sch'.map Prod.fst := fun h => hc (by simp [h])
      simp at hlen
      simpa [rowGet, hc1] using ih hlen hc2

theorem forall2_flip {α β : Type} {R : α → β → Prop} :
    ∀ {as : List α} {bs : List β}, List.Forall₂ R as bs →
      List.Forall₂ (fun b a => R a b) bs as := by
  intro as bs h
  induction h with
  | nil => exact List.Forall₂.nil
  | cons hab _ ih => exact List.Forall₂.cons hab ih

theorem forall2_pair {α β γ : Type} {R : α → β → Prop} {S : α → γ → Prop}
    {T : β → γ → Prop} (h : ∀ a b c, R a b → S a c → T b c) :
    ∀ {as : List α} {bs : List β} {cs : List γ},
      List.Forall₂ R as bs → List.Forall₂ S as cs → List.Forall₂ T bs cs := by
  intro as bs cs h1 h2
  induction h1 generalizing cs with
  | nil => cases h2; exact List.Forall₂.nil
  | cons hab _ ih =>
    cases h2 with
    | cons hac h2' => exact List.Forall₂.cons (h _ _ _ hab hac) (ih h2')

theorem forall2_mem_right {α β : Type} {R : α → β → Prop} :
    ∀ {as : List α} {bs : List β}, List.Forall₂ R as bs → ∀ {b}, b ∈ bs →
      ∃ a ∈ as, R a b := by
  intro as bs h
  induction h with
  | nil => intro b hb; cases hb
  | cons hab _ ih =>
    intro b hb
    rcases List.mem_cons.mp hb with hb | hb
    · subst hb; exact ⟨_, List.mem_cons_self _ _, hab⟩
    · obtain ⟨a, ha, har⟩ := ih hb
      exact ⟨a, List.mem_cons_of_mem _ ha, har⟩

theorem forall2_map_right {α β γ : Type} {S : α → γ → Prop} (g : β → γ) :
    ∀ {as : List α} {bs : List β},
      List.Forall₂ (fun a b => S a (g b)) as bs →
      List.Forall₂ S as (bs.map g) := by
  intro as bs h
  induction h with
  | nil => exact List.Forall₂.nil
  | cons hab _ ih => exact List.Forall₂.cons hab ih

theorem WF_iff {df : DataFrame} :
    df.WF = true ↔ ∀ r ∈ df.rows, r.length = df.schema.length := by
  unfold DataFrame.WF
  rw [List.all_eq_true]
  simp

/-! ## `appendColumn` lemmas -/

theorem appendColumn_ok {df : DataFrame} {n d : String}
    {f : List Value → Except String Value} {df' : DataFrame}
    (h : appendColumn df n d f = Except.ok df') :
    df'.schema = df.schema ++ [(n, d)] ∧
      List.Forall₂ (fun r r' => ∃ v, f r = Except.ok v ∧ r' = r ++ [v])
        df.rows df'.rows := by
  unfold appendColumn at h
  cases hm : df.rows.mapM (fun r => do
      let v ← f r
      Except.ok (r ++ [v])) with
  | error e => rw [hm] at h; simp [Bind.bind, Except.bind] at h
  | ok rows' =>
    rw [hm] at h
    simp only [Bind.bind, Except.bind] at h
    cases h
    refine ⟨rfl, ?_⟩
    have h2 := mapM_ok_forall2 _ _ _ hm
    refine h2.imp ?_
    intro r r' hr
    cases hf : f r with
    | error e => rw [hf] at hr; simp [Bind.bind, Except.bind] at hr
    | ok v =>
      rw [hf] at hr
      simp only [Bind.bind, Except.bind] at hr
      cases hr
      exact ⟨v, rfl, rfl⟩

theorem appendColumn_preserves {df : DataFrame} {n d : String}
    {f : List Value → Except String Value} {df' : DataFrame}
    (h : appendColumn df n d f = Except.ok df') {c : String} {vs : List Value}
    (hc : colValues df c = some vs) : colValues df' c = some vs := by
  obtain ⟨hsch, hrows⟩ := appendColumn_ok h
  rw [colValues_eq_some] at hc ⊢
  unfold colValuesE at hc ⊢
  have h1 := mapM_ok_forall2 _ _ _ hc
  have h2 : List.Forall₂ (fun r' v => rowGetE df'.schema r' c = Except.ok v)
      df'.rows vs := by
    refine forall2_pair ?_ hrows h1
    intro r r' v hr hv
    obtain ⟨w, _, hw2⟩ := hr
    rw [rowGetE_ok] at hv ⊢
    rw [hsch, hw2]
    exact rowGet_append_of_some _ _ hv
  exact forall2_mapM_ok _ h2

theorem appendColumn_new {df : DataFrame} {n d : String}
    {f : List Value → Except String Value} {df' : DataFrame}
    (h : appendColumn df n d f = Except.ok df') (hwf : df.WF = true)
    (hn : ¬n ∈ colNames df) :
    ∃ ws, List.mapM f df.rows = Except.ok ws ∧ colValues df' n = some ws := by
  obtain ⟨hsch, hrows⟩ := appendColumn_ok h
  rw [WF_iff] at hwf
  have key : ∀ (rows rows' : List (List Value)),
      List.Forall₂ (fun r r' => ∃ v, f r = Except.ok v ∧ r' = r ++ [v]) rows rows' →
      (∀ r ∈ rows, r.length = df.schema.length) →
      ∃ ws, List.mapM f rows = Except.ok ws ∧
        List.Forall₂ (fun r' w => rowGetE df'.schema r' n = Except.ok w) rows' ws := by
    intro rows rows' hfa
    induction hfa with
    | nil => exact fun _ => ⟨[], rfl, List.Forall₂.nil⟩
    | cons hab hfa' ih =>
      intro hlen
      obtain ⟨v, hv1, hv2⟩ := hab
      obtain ⟨ws, hws1, hws2⟩ := ih (fun r hr => hlen r (List.mem_cons_of_mem _ hr))
      refine ⟨v :: ws, ?_, ?_⟩
      · rw [List.mapM_cons, hv1, hws1]; rfl
      · refine List.Forall₂.cons ?_ hws2
        rw [rowGetE_ok, hsch, hv2]
        exact rowGet_append_new d v (hlen _ (List.mem_cons_self _ _)) hn
  obtain ⟨ws, hws1, hws2⟩ := key df.rows df'.rows hrows hwf
  refine ⟨ws, hws1, ?_⟩
  rw [colValues_eq_some]
  exact forall2_mapM_ok _ hws2

theorem appendColumn_WF {df : DataFrame} {n d : String}
    {f : List Value → Except String Value} {df' : DataFrame}
    (h : appendColumn df n d f = Except.ok df') (hwf : df.WF = true) :
    df'.WF = true := by
  obtain ⟨hsch, hrows⟩ := appendColumn_ok h
  rw [WF_iff] at hwf ⊢
  intro r' hr'
  obtain ⟨r, hr, hrel⟩ := forall2_mem_right hrows hr'
  obtain ⟨v, _, hv⟩ := hrel
  rw [hv, hsch]
  simp [hwf r hr]

theorem appendColumn_names {df : DataFrame} {n d : String}
    {f : List Value → Except String Value} {df' : DataFrame}
    (h : appendColumn df n d f = Except.ok df') :
    colNames df' = colNames df ++ [n] := by
  obtain ⟨hsch, _⟩ := appendColumn_ok h
  unfold colNames
  rw [hsch]
  simp

/-! ## Schema and stripping lemmas -/

theorem schemaSetString_map_fst (sch : List (String × String)) (c : String) :
    (schemaSetString sch c).map Prod.fst = sch.map Prod.fst := by
  induction sch with
  | nil => rfl
  | cons p sch' ih =>
    obtain ⟨n, t⟩ := p
    by_cases hn : n = c
    · simp [schemaSetString, hn]
    · simp [schemaSetString, hn, ih]

theorem rowGet_schemaSetString (sch : List (String × String)) (c0 : String)
    (r : List Value) (c : String) :
    rowGet (schemaSetString sch c0) r c = rowGet sch r c := by
  induction sch generalizing r with
  | nil => rfl
  | cons p sch' ih =>
    obtain ⟨n, t⟩ := p
    cases r with
    | nil => by_cases hn : n = c0 <;> simp [schemaSetString, hn, rowGet]
    | cons v vs =>
      by_cases hn : n = c0
      · rw [schemaSetString, if_pos hn]
        simp [rowGet]
      · rw [schemaSetString, if_neg hn]
        by_cases hc : n = c
        · simp [rowGet, hc]
        · simp [rowGet, hc, ih]

theorem findType_schemaSetString_ne (sch : List (String × String))
    {c0 c : String} (hc : ¬c = c0) :
    findType (schemaSetString sch c0) c = findType sch c := by
  induction sch with
  | nil => rfl
  | cons p sch' ih =>
    obtain ⟨n, t⟩ := p
    by_cases hn : n = c0
    · subst hn
      have hne : ¬n = c := fun h => hc h.symm
      rw [schemaSetString, if_pos rfl]
      simp [findType, hne]
    · rw [schemaSetString, if_neg hn]
      by_cases hcn : n = c
      · simp [findType, hcn]
      · simp [findType, hcn, ih]

theorem schemaSetString_of_string {sch : List (String × String)} {c : String}
    (h : findType sch c = some "string") : schemaSetString sch c = sch := by
  induction sch with
  | nil => rfl
  | cons p sch' ih =>
    obtain ⟨n, t⟩ := p
    by_cases hn : n = c
    · subst hn
      simp [findType] at h
      simp [schemaSetString, h]
    · simp [findType, hn] at h
      simp [schemaSetString, hn, ih h]

theorem findType_of_mem_nodup {sch : List (String × String)} {c t : String}
    (hnd : (sch.map Prod.fst).Nodup) (hmem : (c, t) ∈ sch) :
    findType sch c = some t := by
  induction sch with
  | nil => cases hmem
  | cons p sch' ih =>
    obtain ⟨n, t'⟩ := p
    rw [List.map_cons, List.nodup_cons] at hnd
    rcases List.mem_cons.mp hmem with hmem | hmem
    · cases hmem
      simp [findType]
    · have hne : ¬n = c := by
        intro h
        subst h
        exact hnd.1 (List.mem_map.mpr ⟨(n, t), hmem, rfl⟩)
      simp [findType, hne]
      exact ih hnd.2 hmem

theorem findType_mem {sch : List (String × String)} {c t : String}
    (h : findType sch c = some t) : (c, t) ∈ sch := by
  induction sch with
  | nil => cases h
  | cons p sch' ih =>
    obtain ⟨n, t'⟩ := p
    by_cases hn : n = c
    · subst hn
      simp [findType] at h
      simp [h]
    · simp [findType, hn] at h
      exact List.mem_cons_of_mem _ (ih h)

theorem findType_isSome_of_mem {sch : List (String × String)} {c : String}
    (h : c ∈ sch.map Prod.fst) : ∃ t, findType sch c = some t := by
  induction sch with
  | nil => simp at h
  | cons p sch' ih =>
    obtain ⟨n, t'⟩ := p
    by_cases hn : n = c
    · exact ⟨t', by simp [findType, hn]⟩
    · rw [List.map_cons] at h
      rcases List.mem_cons.mp h with h | h
      · exact absurd h.symm hn
      · obtain ⟨t, ht⟩ := ih h
        exact ⟨t, by simpa [findType, hn]⟩

theorem stripRowCells_spec {chars : String} :
    ∀ {sch : List (String × String)} {r r' : List Value} {col : String},
      stripRowCells chars sch r col = Except.ok r' →
      r'.length = r.length ∧
        (∀ c, ¬c = col → rowGet sch r' c = rowGet sch r c) ∧
        ∃ s, rowGet sch r col = some (Value.str s) ∧
          rowGet sch r' col = some (Value.str (pyStrip chars s)) := by
  intro sch
  induction sch with
  | nil => intro r r' col h; cases r <;> simp [stripRowCells] at h
  | cons p sch' ih =>
    intro r r' col h
    obtain ⟨n, t⟩ := p
    cases r with
    | nil => simp [stripRowCells] at h
    | cons v vs =>
      by_cases hn : n = col
      · subst hn
        rw [stripRowCells, if_pos rfl] at h
        cases v with
        | str s =>
          simp only [stripCellE, Bind.bind, Except.bind] at h
          cases h
          refine ⟨rfl, ?_, s, ?_, ?_⟩
          · intro c hc
            have hne : ¬n = c := fun h' => hc h'.symm
            simp [rowGet, hne]
          · simp [rowGet]
          · simp [rowGet]
        | num x => simp [stripCellE, Bind.bind, Except.bind] at h
        | vec xs => simp [stripCellE, Bind.bind, Except.bind] at h
      · rw [stripRowCells, if_neg hn] at h
        cases hrec : stripRowCells chars sch' vs col with
        | error e => rw [hrec] at h; simp [Bind.bind, Except.bind] at h
        | ok vs' =>
          rw [hrec] at h
          simp only [Bind.bind, Except.bind] at h
          cases h
          obtain ⟨hlen, hother, s, hs1, hs2⟩ := ih hrec
          refine ⟨by simp [hlen], ?_, s, ?_, ?_⟩
          · intro c hc
            by_cases hcn : n = c
            · simp [rowGet, hcn]
            · simp [rowGet, hcn]
              exact hother c hc
          · simp [rowGet, hn]
            exact hs1
          · simp [rowGet, hn]
            exact hs2

theorem stripCol_ok {df : DataFrame} {col chars : String} {df' : DataFrame}
    (h : stripCol df col chars = Except.ok df') :
    df'.schema = schemaSetString df.schema col ∧
      List.Forall₂ (fun r r' => stripRowCells chars df.schema r col = Except.ok r')
        df.rows df'.rows := by
  unfold stripCol at h
  cases hm : df.rows.mapM (fun r => stripRowCells chars df.schema r col) with
  | error e => rw [hm] at h; simp [Bind.bind, Except.bind] at h
  | ok rows' =>
    rw [hm] at h
    simp only [Bind.bind, Except.bind] at h
    cases h
    exact ⟨rfl, mapM_ok_forall2 _ _ _ hm⟩

theorem stripCol_names {df : DataFrame} {col chars : String} {df' : DataFrame}
    (h : stripCol df col chars = Except.ok df') : colNames df' = colNames df := by
  obtain ⟨hsch, _⟩ := stripCol_ok h
  unfold colNames
  rw [hsch, schemaSetString_map_fst]

theorem stripCol_preserves {df : DataFrame} {col chars : String} {df' : DataFrame}
    (h : stripCol df col chars = Except.ok df') {c : String} (hc : ¬c = col) :
    colValues df' c = colValues df c := by
  obtain ⟨hsch, hrows⟩ := stripCol_ok h
  unfold colValues colValuesE
  have : List.mapM (fun r => rowGetE df'.schema r c) df'.rows =
      List.mapM (fun r => rowGetE df.schema r c) df.rows := by
    refine mapM_shift (forall2_flip (hrows.imp ?_))
    intro r r' hr
    obtain ⟨_, hother, _⟩ := stripRowCells_spec hr
    unfold rowGetE
    rw [hsch, rowGet_schemaSetString, hother c hc]
  rw [this]

theorem stripCol_strips {df : DataFrame} {col chars : String} {df' : DataFrame}
    (h : stripCol df col chars = Except.ok df') :
    ∃ ss : List String, colValues df col = some (ss.map Value.str) ∧
      colValues df' col = some (ss.map (fun s => Value.str (pyStrip chars s))) := by
  obtain ⟨hsch, hrows⟩ := stripCol_ok h
  have key : ∀ (rows rows' : List (List Value)),
      List.Forall₂ (fun r r' => stripRowCells chars df.schema r col = Except.ok r')
        rows rows' →
      ∃ ss : List String,
        List.Forall₂ (fun r s => rowGetE df.schema r col = Except.ok (Value.str s))
          rows ss ∧
        List.Forall₂
          (fun r' s => rowGetE df'.schema r' col =
            Except.ok (Value.str (pyStrip chars s))) rows' ss := by
    intro rows rows' hfa
    induction hfa with
    | nil => exact ⟨[], List.Forall₂.nil, List.Forall₂.nil⟩
    | cons hab _ ih =>
      obtain ⟨ss, hss1, hss2⟩ := ih
      obtain ⟨_, _, s, hs1, hs2⟩ := stripRowCells_spec hab
      refine ⟨s :: ss, List.Forall₂.cons ?_ hss1, List.Forall₂.cons ?_ hss2⟩
      · rw [rowGetE_ok]; exact hs1
      · rw [rowGetE_ok, hsch, rowGet_schemaSetString]; exact hs2
  obtain ⟨ss, hss1, hss2⟩ := key df.rows df'.rows hrows
  refine ⟨ss, ?_, ?_⟩
  · rw [colValues_eq_some]
    unfold colValuesE
    exact forall2_mapM_ok _ (forall2_map_right Value.str hss1)
  · rw [colValues_eq_some]
    unfold colValuesE
    exact forall2_mapM_ok _
      (forall2_map_right (fun s => Value.str (pyStrip chars s)) hss2)

theorem stripCol_WF {df : DataFrame} {col chars : String} {df' : DataFrame}
    (h : stripCol df col chars = Except.ok df') (hwf : df.WF = true) :
    df'.WF = true := by
  obtain ⟨hsch, hrows⟩ := stripCol_ok h
  rw [WF_iff] at hwf ⊢
  intro r' hr'
  obtain ⟨r, hr, hrel⟩ := forall2_mem_right hrows hr'
  obtain ⟨hlen, _, _⟩ := stripRowCells_spec hrel
  rw [hlen, hsch]
  have : (schemaSetString df.schema col).length = df.schema.length := by
    have := schemaSetString_map_fst df.schema col
    calc (schemaSetString df.schema col).length
        = ((schemaSetString df.schema col).map Prod.fst).length := by simp
      _ = (df.schema.map Prod.fst).length := by rw [this]
      _ = df.schema.length := by simp
  rw [this]
  exact hwf r hr

/-! ## Column classification lemmas -/

theorem getColsByTypes_ok {s : PrepState} {types : List String} {L : List String}
    (h : getColsByTypes s types = Except.ok L) :
    L = (s.train_df.schema.filter (fun p => p.2 ∈ types)).map Prod.fst ∧
      (s.test_df.schema.filter (fun p => p.2 ∈ types)).map Prod.fst = L := by
  unfold getColsByTypes at h
  dsimp only at h
  split at h
  · cases h
    refine ⟨rfl, ?_⟩
    exact Eq.symm (by assumption)
  · cases h

theorem mem_cols_by_types {sch : List (String × String)} {types : List String}
    {c : String} :
    c ∈ (sch.filter (fun p => p.2 ∈ types)).map Prod.fst ↔
      ∃ t, (c, t) ∈ sch ∧ t ∈ types := by
  constructor
  · intro h
    obtain ⟨p, hp, hpc⟩ := List.mem_map.mp h
    obtain ⟨hmem, htype⟩ := List.mem_filter.mp hp
    refine ⟨p.2, ?_, by simpa using htype⟩
    rw [← hpc]
    simpa using hmem
  · intro ⟨t, hmem, htype⟩
    exact List.mem_map.mpr ⟨(c, t), List.mem_filter.mpr ⟨hmem, by simpa⟩, rfl⟩

theorem factorsE_ok {s : PrepState} {F : List String}
    (h : factorsE s = Except.ok F) :
    F = (s.train_df.schema.filter (fun p => p.2 ∈ (["string"] : List String))).map
        Prod.fst ∧
      (s.test_df.schema.filter (fun p => p.2 ∈ (["string"] : List String))).map
        Prod.fst = F :=
  getColsByTypes_ok h

theorem mem_factorsE {s : PrepState} {F : List String}
    (h : factorsE s = Except.ok F) {c : String} :
    c ∈ F ↔ (c, "string") ∈ s.train_df.schema := by
  obtain ⟨h1, _⟩ := factorsE_ok h
  rw [h1, mem_cols_by_types]
  constructor
  · intro ⟨t, hmem, ht⟩
    simp at ht
    rwa [ht] at hmem
  · intro hmem
    exact ⟨"string", hmem, by simp⟩

theorem mem_factorsE_test {s : PrepState} {F : List String}
    (h : factorsE s = Except.ok F) {c : String} :
    c ∈ F ↔ (c, "string") ∈ s.test_df.schema := by
  obtain ⟨_, h2⟩ := factorsE_ok h
  rw [← h2, mem_cols_by_types]
  constructor
  · intro ⟨t, hmem, ht⟩
    simp at ht
    rwa [ht] at hmem
  · intro hmem
    exact ⟨"string", hmem, by simp⟩

theorem mem_numericE {s : PrepState} {N : List String}
    (h : numericColumnsE s = Except.ok N) {c : String} :
    c ∈ N ↔ ∃ t, (c, t) ∈ s.train_df.schema ∧ (t = "double" ∨ t = "int") := by
  obtain ⟨h1, _⟩ := getColsByTypes_ok h
  rw [h1, mem_cols_by_types]
  constructor
  · intro ⟨t, hmem, ht⟩
    simp at ht
    exact ⟨t, hmem, ht⟩
  · intro ⟨t, hmem, ht⟩
    exact ⟨t, hmem, by simpa⟩

theorem assertAreFactors_ok {s : PrepState} {cols : List String}
    (h : assertAreFactors s cols = Except.ok ()) :
    ∃ F, factorsE s = Except.ok F ∧ ∀ c ∈ cols, c ∈ F := by
  unfold assertAreFactors at h
  cases hf : factorsE s with
  | error e => rw [hf] at h; simp [Bind.bind, Except.bind] at h
  | ok F =>
    rw [hf] at h
    simp only [Bind.bind, Except.bind] at h
    split at h
    · refine ⟨F, rfl, ?_⟩
      intro c hc
      have hall := List.all_eq_true.mp (by assumption) c hc
      exact of_decide_eq_true hall
    · cases h

theorem assertAreFactors_error {s : PrepState} {cols : List String} {F : List String}
    (hf : factorsE s = Except.ok F) {c : String} (hc : c ∈ cols) (hcF : ¬c ∈ F) :
    assertAreFactors s cols = Except.error "Some column is not a factor" := by
  unfold assertAreFactors
  rw [hf]
  simp only [Bind.bind, Except.bind]
  split
  · exfalso
    have hall := List.all_eq_true.mp (by assumption) c hc
    exact hcF (of_decide_eq_true hall)
  · rfl

/-! ## `StringIndexer` transform lemmas -/

theorem siTransform_parts {m : SIModel} {df df' : DataFrame}
    (h : siTransform m df = Except.ok df') :
    ¬m.outputCol ∈ colNames df ∧
      appendColumn df m.outputCol "double" (fun r => do
        let v ← rowGetE df.schema r m.inputCol
        match v with
        | Value.str s =>
          match idxOf? m.labels s with
          | some n => Except.ok (Value.num (Int.ofNat n))
          | none => Except.error "Unseen label"
        | _ => Except.error "StringIndexer input is not a string column") =
        Except.ok df' := by
  unfold siTransform at h
  split at h
  · cases h
  · exact ⟨by assumption, h⟩

theorem siTransform_schema {m : SIModel} {df df' : DataFrame}
    (h : siTransform m df = Except.ok df') :
    df'.schema = df.schema ++ [(m.outputCol, "double")] :=
  (appendColumn_ok (siTransform_parts h).2).1

theorem siTransform_preserves {m : SIModel} {df df' : DataFrame}
    (h : siTransform m df = Except.ok df') {c : String} {vs : List Value}
    (hc : colValues df c = some vs) : colValues df' c = some vs :=
  appendColumn_preserves (siTransform_parts h).2 hc

theorem siTransform_WF {m : SIModel} {df df' : DataFrame}
    (h : siTransform m df = Except.ok df') (hwf : df.WF = true) :
    df'.WF = true :=
  appendColumn_WF (siTransform_parts h).2 hwf

theorem mapM_codes {labels : List String} :
    ∀ {xs : List String} {cs : List Value},
      List.mapM (fun s =>
          match idxOf? labels s with
          | some n => Except.ok (Value.num (Int.ofNat n))
          | none => Except.error "Unseen label") xs = Except.ok cs ↔
        indexCodes labels xs = some cs := by
  intro xs
  induction xs with
  | nil =>
    intro cs
    rw [List.mapM_nil]
    unfold indexCodes
    rw [List.mapM_nil]
    constructor
    · intro h; cases h; rfl
    · intro h; cases h; rfl
  | cons a l ih =>
    intro cs
    rw [List.mapM_cons]
    unfold indexCodes
    rw [List.mapM_cons]
    unfold indexCodes at ih
    cases hgl : idxOf? labels a with
    | none =>
      simp [Bind.bind, Except.bind, Option.bind]
    | some n =>
      simp only [Bind.bind, Except.bind, Option.bind]
      cases hml : List.mapM (fun s =>
          match idxOf? labels s with
          | some n => Except.ok (Value.num (Int.ofNat n))
          | none => Except.error "Unseen label") l with
      | error e =>
        cases hol : List.mapM (fun v =>
            (idxOf? labels v).map fun n => Value.num (Int.ofNat n)) l with
        | none => simp
        | some ws =>
          exfalso
          have := (@ih ws).mpr hol
          rw [hml] at this
          cases this
      | ok ws =>
        have hol := (@ih ws).mp hml
        rw [hol]
        simp only [pure, Except.pure, Option.some.injEq]
        constructor
        · intro h; cases h; rfl
        · intro h; cases h; rfl

theorem forall2_of_map_right {α β γ : Type} {S : α → γ → Prop} (g : β → γ) :
    ∀ {bs : List β} {as : List α}, List.Forall₂ S as (bs.map g) →
      List.Forall₂ (fun a b => S a (g b)) as bs := by
  intro bs
  induction bs with
  | nil =>
    intro as h
    cases h
    exact List.Forall₂.nil
  | cons b bs' ih =>
    intro as h
    cases h with
    | cons hab h' => exact List.Forall₂.cons hab (ih h')

theorem forall2_eq_map {α β : Type} {g : β → α} :
    ∀ {as : List α} {bs : List β}, List.Forall₂ (fun a b => a = g b) as bs →
      as = bs.map g := by
  intro as bs h
  induction h with
  | nil => rfl
  | cons hab _ ih => rw [List.map_cons, hab, ih]

theorem mapM_total {α β : Type} (f : α → Except String β) :
    ∀ {l : List α}, (∀ x ∈ l, ∃ y, f x = Except.ok y) →
      ∃ ys, l.mapM f = Except.ok ys := by
  intro l
  induction l with
  | nil => exact fun _ => ⟨[], rfl⟩
  | cons a l' ih =>
    intro h
    obtain ⟨y, hy⟩ := h a (List.mem_cons_self _ _)
    obtain ⟨ys, hys⟩ := ih (fun x hx => h x (List.mem_cons_of_mem _ hx))
    refine ⟨y :: ys, ?_⟩
    rw [List.mapM_cons, hy, hys]
    rfl

theorem colValues_total {df : DataFrame} {c : String} (hwf : df.WF = true)
    (hc : c ∈ colNames df) : ∃ vs, colValues df c = some vs := by
  rw [WF_iff] at hwf
  have := mapM_total (fun r => rowGetE df.schema r c)
    (l := df.rows) ?_
  · obtain ⟨vs, hvs⟩ := this
    exact ⟨vs, colValues_eq_some.mpr hvs⟩
  · intro r hr
    obtain ⟨v, hv⟩ := rowGet_total (hwf r hr) hc
    exact ⟨v, rowGetE_ok.mpr hv⟩

theorem siTransform_names {m : SIModel} {df df' : DataFrame}
    (h : siTransform m df = Except.ok df') :
    colNames df' = colNames df ++ [m.outputCol] :=
  appendColumn_names (siTransform_parts h).2

theorem fitStringIndexer_ok {df : DataFrame} {i o : String} {m : SIModel}
    (h : fitStringIndexer df i o = Except.ok m) :
    m.inputCol = i ∧ m.outputCol = o ∧
      ∃ xs : List String, colValues df i = some (xs.map Value.str) ∧
        m.labels = indexerLabels xs := by
  unfold fitStringIndexer at h
  cases hv : colValuesE df i with
  | error e => rw [hv] at h; simp [Bind.bind, Except.bind] at h
  | ok vs =>
    rw [hv] at h
    simp only [Bind.bind, Except.bind] at h
    cases hm : vs.mapM (fun v =>
        match v with
        | Value.str s => Except.ok s
        | _ => Except.error "StringIndexer input is not a string column") with
    | error e => rw [hm] at h; cases h
    | ok xs =>
      rw [hm] at h
      cases h
      refine ⟨rfl, rfl, xs, ?_, rfl⟩
      have hfa := mapM_ok_forall2 _ _ _ hm
      have : vs = xs.map Value.str := by
        refine forall2_eq_map (hfa.imp ?_)
        intro v s hv'
        cases v with
        | str s' => cases hv'; rfl
        | num x => cases hv'
        | vec ys => cases hv'
      rw [colValues_eq_some, hv, this]

theorem siTransform_new {m : SIModel} {df df' : DataFrame}
    (h : siTransform m df = Except.ok df') (hwf : df.WF = true)
    (hmem : m.inputCol ∈ colNames df) :
    ∃ (xs : List String) (cs : List Value),
      colValues df m.inputCol = some (xs.map Value.str) ∧
        indexCodes m.labels xs = some cs ∧
        colValues df' m.outputCol = some cs := by
  obtain ⟨hout, happ⟩ := siTransform_parts h
  obtain ⟨ws, hws1, hws2⟩ := appendColumn_new happ hwf hout
  obtain ⟨vs, hvs⟩ := colValues_total hwf hmem
  have hfa : List.Forall₂ (fun r v => rowGetE df.schema r m.inputCol = Except.ok v)
      df.rows vs := mapM_ok_forall2 _ _ _ (colValues_eq_some.mp hvs)
  have hws := mapM_ok_forall2 _ _ _ hws1
  have hvw : List.Forall₂ (fun v w =>
      (match v with
      | Value.str s =>
        match idxOf? m.labels s with
        | some n => Except.ok (Value.num (Int.ofNat n))
        | none => Except.error "Unseen label"
      | _ => (Except.error "StringIndexer input is not a string column" :
          Except String Value)) = Except.ok w) vs ws := by
    refine forall2_pair ?_ hfa hws
    intro r v w hv hw
    rw [← hw]
    simp only [hv, Bind.bind, Except.bind]
  have key : ∀ (vs ws : List Value),
      List.Forall₂ (fun v w =>
        (match v with
        | Value.str s =>
          match idxOf? m.labels s with
          | some n => Except.ok (Value.num (Int.ofNat n))
          | none => Except.error "Unseen label"
        | _ => (Except.error "StringIndexer input is not a string column" :
            Except String Value)) = Except.ok w) vs ws →
      ∃ xs : List String, vs = xs.map Value.str ∧
        List.Forall₂ (fun s w =>
          (match idxOf? m.labels s with
          | some n => Except.ok (Value.num (Int.ofNat n))
          | none => (Except.error "Unseen label" : Except String Value)) =
            Except.ok w) xs ws := by
    intro vs
    induction vs with
    | nil =>
      intro ws hrel
      cases hrel
      exact ⟨[], rfl, List.Forall₂.nil⟩
    | cons v vs' ih =>
      intro ws hrel
      cases hrel with
      | cons hab htail =>
        obtain ⟨xs, hxs1, hxs2⟩ := ih _ htail
        cases v with
        | str s =>
          exact ⟨s :: xs, by rw [List.map_cons, hxs1],
            List.Forall₂.cons hab hxs2⟩
        | num x => cases hab
        | vec ys => cases hab
  obtain ⟨xs, hxs1, hxs2⟩ := key vs ws hvw
  refine ⟨xs, ws, by rwa [hxs1] at hvs, ?_, hws2⟩
  rw [← mapM_codes]
  exact forall2_mapM_ok _ hxs2

/-! ## Pipeline lemmas -/

theorem forall2_imp_mem {α β : Type} {R S : α → β → Prop} :
    ∀ {as : List α} {bs : List β}, List.Forall₂ R as bs →
      (∀ a ∈ as, ∀ b, R a b → S a b) → List.Forall₂ S as bs := by
  intro as bs h
  induction h with
  | nil => exact fun _ => List.Forall₂.nil
  | cons hab _ ih =>
    intro himp
    exact List.Forall₂.cons
      (himp _ (List.mem_cons_self _ _) _ hab)
      (ih fun a ha b hr => himp a (List.mem_cons_of_mem _ ha) b hr)

theorem pipelineTransform_nil (df : DataFrame) :
    pipelineTransform [] df = Except.ok df := rfl

theorem pipelineTransform_cons (m : SIModel) (ms : List SIModel) (df : DataFrame) :
    pipelineTransform (m :: ms) df =
      (siTransform m df).bind (fun d => pipelineTransform ms d) := by
  unfold pipelineTransform
  rw [List.foldlM_cons]
  cases siTransform m df <;> rfl

theorem pipelineTransform_preserves :
    ∀ {ms : List SIModel} {df df' : DataFrame},
      pipelineTransform ms df = Except.ok df' →
      ∀ {c : String} {vs : List Value}, colValues df c = some vs →
        colValues df' c = some vs := by
  intro ms
  induction ms with
  | nil =>
    intro df df' h c vs hc
    rw [pipelineTransform_nil] at h
    cases h
    exact hc
  | cons m ms' ih =>
    intro df df' h c vs hc
    rw [pipelineTransform_cons] at h
    cases hm : siTransform m df with
    | error e => rw [hm] at h; cases h
    | ok d =>
      rw [hm] at h
      exact ih h (siTransform_preserves hm hc)

theorem pipelineTransform_schema :
    ∀ {ms : List SIModel} {df df' : DataFrame},
      pipelineTransform ms df = Except.ok df' →
      df'.schema = df.schema ++ ms.map (fun m => (m.outputCol, "double")) := by
  intro ms
  induction ms with
  | nil =>
    intro df df' h
    rw [pipelineTransform_nil] at h
    cases h
    simp
  | cons m ms' ih =>
    intro df df' h
    rw [pipelineTransform_cons] at h
    cases hm : siTransform m df with
    | error e => rw [hm] at h; cases h
    | ok d =>
      rw [hm] at h
      rw [ih h, siTransform_schema hm]
      simp

theorem pipelineTransform_WF :
    ∀ {ms : List SIModel} {df df' : DataFrame},
      pipelineTransform ms df = Except.ok df' → df.WF = true → df'.WF = true := by
  intro ms
  induction ms with
  | nil =>
    intro df df' h hwf
    rw [pipelineTransform_nil] at h
    cases h
    exact hwf
  | cons m ms' ih =>
    intro df df' h hwf
    rw [pipelineTransform_cons] at h
    cases hm : siTransform m df with
    | error e => rw [hm] at h; cases h
    | ok d =>
      rw [hm] at h
      exact ih h (siTransform_WF hm hwf)

theorem pipelineTransform_creates :
    ∀ {ms : List SIModel} {df df' : DataFrame},
      pipelineTransform ms df = Except.ok df' → df.WF = true →
      (∀ m ∈ ms, m.inputCol ∈ colNames df) →
      ∀ m ∈ ms, ∃ (xs : List String) (cs : List Value),
        colValues df m.inputCol = some (xs.map Value.str) ∧
          indexCodes m.labels xs = some cs ∧
          colValues df' m.outputCol = some cs := by
  intro ms
  induction ms with
  | nil => intro df df' _ _ _ m hm; cases hm
  | cons m0 ms' ih =>
    intro df df' h hwf hin m hm
    rw [pipelineTransform_cons] at h
    cases hm0 : siTransform m0 df with
    | error e => rw [hm0] at h; cases h
    | ok d =>
      rw [hm0] at h
      rcases List.mem_cons.mp hm with hm | hm
      · subst hm
        obtain ⟨xs, cs, hx1, hx2, hx3⟩ :=
          siTransform_new hm0 hwf (hin m (List.mem_cons_self _ _))
        exact ⟨xs, cs, hx1, hx2, pipelineTransform_preserves h hx3⟩
      · have hwf' := siTransform_WF hm0 hwf
        have hin' : ∀ m' ∈ ms', m'.inputCol ∈ colNames d := by
          intro m' hm'
          rw [siTransform_names hm0]
          exact List.mem_append_left _ (hin m' (List.mem_cons_of_mem _ hm'))
        obtain ⟨xs, cs, hx1, hx2, hx3⟩ := ih h hwf' hin' m hm
        obtain ⟨vs, hvs⟩ := colValues_total hwf
          (hin m (List.mem_cons_of_mem _ hm))
        have hvs' := siTransform_preserves hm0 hvs
        rw [hvs'] at hx1
        cases hx1
        exact ⟨xs, cs, hvs, hx2, hx3⟩

theorem pipelineFit_spec :
    ∀ (stages : List (String × String)) (df : DataFrame) (ms : List SIModel),
      pipelineFit stages df = Except.ok ms → df.WF = true →
      (∀ st ∈ stages, st.1 ∈ colNames df) →
      List.Forall₂ (fun (st : String × String) (m : SIModel) =>
        m.inputCol = st.1 ∧ m.outputCol = st.2 ∧
          ∃ xs : List String, colValues df st.1 = some (xs.map Value.str) ∧
            m.labels = indexerLabels xs) stages ms := by
  intro stages
  induction stages with
  | nil =>
    intro df ms h _ _
    unfold pipelineFit at h
    cases h
    exact List.Forall₂.nil
  | cons st rest ih =>
    intro df ms h hwf hin
    obtain ⟨i, o⟩ := st
    unfold pipelineFit at h
    cases hfit : fitStringIndexer df i o with
    | error e => rw [hfit] at h; simp [Bind.bind, Except.bind] at h
    | ok m =>
      rw [hfit] at h
      simp only [Bind.bind, Except.bind] at h
      cases htr : siTransform m df with
      | error e => rw [htr] at h; cases h
      | ok d =>
        rw [htr] at h
        dsimp only at h
        cases hrest : pipelineFit rest d with
        | error e => rw [hrest] at h; cases h
        | ok ms' =>
          rw [hrest] at h
          cases h
          obtain ⟨hm1, hm2, xs, hxs1, hxs2⟩ := fitStringIndexer_ok hfit
          refine List.Forall₂.cons ⟨hm1, hm2, xs, hxs1, hxs2⟩ ?_
          have hwf' := siTransform_WF htr hwf
          have hin' : ∀ st' ∈ rest, st'.1 ∈ colNames d := by
            intro st' hst'
            rw [siTransform_names htr]
            exact List.mem_append_left _ (hin st' (List.mem_cons_of_mem _ hst'))
          have hrec := ih d ms' hrest hwf' hin'
          refine forall2_imp_mem hrec ?_
          intro st' hst' m' hm'
          obtain ⟨h1, h2, ys, hys1, hys2⟩ := hm'
          refine ⟨h1, h2, ys, ?_, hys2⟩
          obtain ⟨vs, hvs⟩ := colValues_total hwf
            (hin st' (List.mem_cons_of_mem _ hst'))
          have hvs' := siTransform_preserves htr hvs
          rw [hvs'] at hys1
          cases hys1
          exact hvs

/-! ## OneHotEncoder and VectorAssembler lemmas -/

theorem fitOHE_ok {df : DataFrame} {pairs : List (String × String)} {m : OHEModel}
    (h : fitOHE df pairs = Except.ok m) :
    List.Forall₂ (fun (p : String × String) (c : String × String × Nat) =>
      c.1 = p.1 ∧ c.2.1 = p.2) pairs m.cols := by
  unfold fitOHE at h
  cases hm : pairs.mapM (fun p => do
      let vs ← colValuesE df p.1
      let sz ← oheSize vs
      Except.ok (p.1, p.2, sz)) with
  | error e => rw [hm] at h; simp [Bind.bind, Except.bind] at h
  | ok cols =>
    rw [hm] at h
    simp only [Bind.bind, Except.bind] at h
    cases h
    refine (mapM_ok_forall2 _ _ _ hm).imp ?_
    intro p c hp
    cases hv : colValuesE df p.1 with
    | error e => rw [hv] at hp; simp [Bind.bind, Except.bind] at hp
    | ok vs =>
      rw [hv] at hp
      simp only [Bind.bind, Except.bind] at hp
      cases hs : oheSize vs with
      | error e => rw [hs] at hp; cases hp
      | ok sz =>
        rw [hs] at hp
        cases hp
        exact ⟨rfl, rfl⟩

theorem oheTransform_fold :
    ∀ {cols : List (String × String × Nat)} {df df' : DataFrame},
      oheTransform ⟨cols⟩ df = Except.ok df' →
      (df'.schema = df.schema ++ cols.map (fun c => (c.2.1, "vector"))) ∧
        (∀ {c : String} {vs : List Value}, colValues df c = some vs →
          colValues df' c = some vs) ∧
        (df.WF = true → df'.WF = true) := by
  intro cols
  induction cols with
  | nil =>
    intro df df' h
    cases h
    exact ⟨by simp, fun hc => hc, fun hwf => hwf⟩
  | cons c0 rest ih =>
    intro df df' h
    unfold oheTransform at h
    rw [List.foldlM_cons] at h
    split at h
    · simp [Bind.bind, Except.bind] at h
    · cases happ : appendColumn df c0.2.1 "vector" (fun r => do
          let v ← rowGetE df.schema r c0.1
          match v with
          | Value.num x =>
            if 0 ≤ x ∧ x.toNat < c0.2.2 then
              Except.ok (Value.vec (oneHotVec c0.2.2 x.toNat))
            else Except.error "invalid category code"
          | _ => Except.error "OneHotEncoder input is not numeric") with
      | error e => rw [happ] at h; simp [Bind.bind, Except.bind] at h
      | ok d =>
        rw [happ] at h
        simp only [Bind.bind, Except.bind] at h
        have hrest : oheTransform ⟨rest⟩ d = Except.ok df' := h
        obtain ⟨hsch, hpres, hwf⟩ := ih hrest
        refine ⟨?_, ?_, ?_⟩
        · rw [hsch, (appendColumn_ok happ).1]
          simp
        · intro c vs hc
          exact hpres (appendColumn_preserves happ hc)
        · intro hwf0
          exact hwf (appendColumn_WF happ hwf0)

theorem oneHotEncodeOp_ok {s : PrepState} {columns : List String} {suffix : String}
    {s' : PrepState} (h : oneHotEncodeOp s columns suffix = Except.ok s') :
    (s'.train_df.schema =
        s.train_df.schema ++ columns.map (fun c => (c ++ suffix, "vector"))) ∧
      (s'.test_df.schema =
        s.test_df.schema ++ columns.map (fun c => (c ++ suffix, "vector"))) ∧
      (∀ {c : String} {vs : List Value}, colValues s.train_df c = some vs →
        colValues s'.train_df c = some vs) ∧
      (∀ {c : String} {vs : List Value}, colValues s.test_df c = some vs →
        colValues s'.test_df c = some vs) ∧
      (s.train_df.WF = true → s'.train_df.WF = true) ∧
      (s.test_df.WF = true → s'.test_df.WF = true) ∧
      s'.train_encoded_df = s.train_encoded_df ∧
      s'.test_encoded_df = s.test_encoded_df := by
  unfold oneHotEncodeOp at h
  cases hfit : fitOHE s.train_df (columns.map (fun c => (c, c ++ suffix))) with
  | error e => rw [hfit] at h; simp [Bind.bind, Except.bind] at h
  | ok m =>
    rw [hfit] at h
    simp only [Bind.bind, Except.bind] at h
    cases htr : oheTransform m s.train_df with
    | error e => rw [htr] at h; cases h
    | ok tr =>
      rw [htr] at h
      dsimp only at h
      cases hte : oheTransform m s.test_df with
      | error e => rw [hte] at h; cases h
      | ok te =>
        rw [hte] at h
        cases h
        have hkey : ∀ (cls : List String) (mcols : List (String × String × Nat)),
            List.Forall₂ (fun (p : String × String) (c : String × String × Nat) =>
              c.1 = p.1 ∧ c.2.1 = p.2) (cls.map (fun c => (c, c ++ suffix))) mcols →
            mcols.map (fun c => (c.2.1, "vector")) =
              cls.map (fun c => (c ++ suffix, "vector")) := by
          intro cls
          induction cls with
          | nil =>
            intro mcols hfa
            cases hfa
            rfl
          | cons a cls' ih =>
            intro mcols hfa
            rw [List.map_cons] at hfa
            cases hfa with
            | cons hab htail =>
              rw [List.map_cons, List.map_cons, ih _ htail]
              congr 1
              rw [hab.2]
        have houts := hkey columns m.cols (fitOHE_ok hfit)
        obtain ⟨h1, h2, h3⟩ := oheTransform_fold (by rw [← htr])
        obtain ⟨h4, h5, h6⟩ := oheTransform_fold (by rw [← hte])
        exact ⟨by rw [h1, houts], by rw [h4, houts],
          fun hc => h2 hc, fun hc => h5 hc, h3, h6, rfl, rfl⟩

theorem vectorAssemble_parts {df : DataFrame} {cols : List String} {out : String}
    {df' : DataFrame} (h : vectorAssemble df cols out = Except.ok df') :
    ¬out ∈ colNames df ∧
      df'.schema = df.schema ++ [(out, "vector")] ∧
      (∀ {c : String} {vs : List Value}, colValues df c = some vs →
        colValues df' c = some vs) ∧
      (df.WF = true → df'.WF = true) := by
  unfold vectorAssemble at h
  split at h
  · cases h
  · refine ⟨by assumption, (appendColumn_ok h).1, ?_, appendColumn_WF h⟩
    intro c vs hc
    exact appendColumn_preserves h hc

theorem assembleFeaturesOp_ok {s : PrepState} {columns : List String}
    {out : String} {s' : PrepState}
    (h : assembleFeaturesOp s columns out = Except.ok s') :
    ¬out ∈ colNames s.train_df ∧ ¬out ∈ colNames s.test_df ∧
      s'.train_df.schema = s.train_df.schema ++ [(out, "vector")] ∧
      s'.test_df.schema = s.test_df.schema ++ [(out, "vector")] ∧
      (∀ {c : String} {vs : List Value}, colValues s.train_df c = some vs →
        colValues s'.train_df c = some vs) ∧
      (∀ {c : String} {vs : List Value}, colValues s.test_df c = some vs →
        colValues s'.test_df c = some vs) ∧
      (s.train_df.WF = true → s'.train_df.WF = true) ∧
      (s.test_df.WF = true → s'.test_df.WF = true) ∧
      s'.train_encoded_df = s.train_encoded_df ∧
      s'.test_encoded_df = s.test_encoded_df := by
  unfold assembleFeaturesOp at h
  cases htr : vectorAssemble s.train_df columns out with
  | error e => rw [htr] at h; simp [Bind.bind, Except.bind] at h
  | ok tr =>
    rw [htr] at h
    simp only [Bind.bind, Except.bind] at h
    cases hte : vectorAssemble s.test_df columns out with
    | error e => rw [hte] at h; cases h
    | ok te =>
      rw [hte] at h
      cases h
      obtain ⟨ho1, hs1, hp1, hw1⟩ := vectorAssemble_parts htr
      obtain ⟨ho2, hs2, hp2, hw2⟩ := vectorAssemble_parts hte
      exact ⟨ho1, ho2, hs1, hs2, fun hc => hp1 hc, fun hc => hp2 hc,
        hw1, hw2, rfl, rfl⟩

/-! ## Selection lemmas -/

theorem selectToModel_ok {df : DataFrame} {tc : String} {enc : DataFrame}
    (h : selectToModel df tc = Except.ok enc) (hne : ¬tc = "features") :
    ∃ t1 t2, findType df.schema tc = some t1 ∧
      enc.schema = [("label", t1), ("features", t2)] ∧
      ∃ vs, colValues df tc = some vs ∧ colValues enc "label" = some vs := by
  unfold selectToModel selectCols at h
  simp only [Bind.bind, Except.bind] at h
  cases hf1 : findType df.schema tc with
  | none => rw [List.mapM_cons, hf1] at h; simp [Bind.bind, Except.bind] at h
  | some t1 =>
    cases hf2 : findType df.schema "features" with
    | none =>
      rw [List.mapM_cons, hf1, List.mapM_cons, hf2] at h
      simp [Bind.bind, Except.bind, pure, Except.pure] at h
    | some t2 =>
      rw [List.mapM_cons, hf1, List.mapM_cons, hf2, List.mapM_nil] at h
      simp only [Bind.bind, Except.bind, pure, Except.pure] at h
      cases hrows : df.rows.mapM (fun r =>
          [tc, "features"].mapM (fun c => rowGetE df.schema r c)) with
      | error e => rw [hrows] at h; cases h
      | ok rows' =>
        rw [hrows] at h
        cases h
        have hsch : (renameCol ⟨[(tc, t1), ("features", t2)], rows'⟩ tc
            "label").schema = [("label", t1), ("features", t2)] := by
          have h2 : ¬"features" = tc := fun hh => hne hh.symm
          simp [renameCol, h2]
        refine ⟨t1, t2, rfl, hsch, ?_⟩
        have key : ∀ (rows : List (List Value)) (rows' : List (List Value)),
            List.Forall₂ (fun r row' =>
              [tc, "features"].mapM (fun c => rowGetE df.schema r c) =
                Except.ok row') rows rows' →
            ∃ v1s : List Value,
              List.Forall₂ (fun r v => rowGetE df.schema r tc = Except.ok v)
                rows v1s ∧
              List.Forall₂ (fun row' v =>
                rowGetE [("label", t1), ("features", t2)] row' "label" =
                  Except.ok v) rows' v1s := by
          intro rows
          induction rows with
          | nil =>
            intro rows' hfa
            cases hfa
            exact ⟨[], List.Forall₂.nil, List.Forall₂.nil⟩
          | cons r rows0 ih =>
            intro rows' hfa
            cases hfa with
            | cons hab htail =>
              obtain ⟨v1s, hv1, hv2⟩ := ih _ htail
              have h2 := mapM_ok_forall2 _ _ _ hab
              cases h2 with
              | cons hc1 h2' =>
                cases h2' with
                | cons hc2 h2'' =>
                  cases h2''
                  refine ⟨_ :: v1s, List.Forall₂.cons hc1 hv1,
                    List.Forall₂.cons ?_ hv2⟩
                  rw [rowGetE_ok]
                  simp [rowGet]
        obtain ⟨v1s, hv1, hv2⟩ := key df.rows rows' (mapM_ok_forall2 _ _ _ hrows)
        refine ⟨v1s, ?_, ?_⟩
        · rw [colValues_eq_some]
          exact forall2_mapM_ok _ hv1
        · rw [colValues_eq_some]
          unfold colValuesE
          rw [hsch]
          exact forall2_mapM_ok _ hv2

/-! ## `strip_columns` lemmas -/

theorem forall2_mem_left {α β : Type} {R : α → β → Prop} :
    ∀ {as : List α} {bs : List β}, List.Forall₂ R as bs → ∀ {a}, a ∈ as →
      ∃ b ∈ bs, R a b := by
  intro as bs h
  induction h with
  | nil => intro a ha; cases ha
  | cons hab _ ih =>
    intro a ha
    rcases List.mem_cons.mp ha with ha | ha
    · subst ha; exact ⟨_, List.mem_cons_self _ _, hab⟩
    · obtain ⟨b, hb, hbr⟩ := ih ha
      exact ⟨b, List.mem_cons_of_mem _ hb, hbr⟩

theorem stripPair_ok {chars : String} {st : PrepState} {c : String}
    {st' : PrepState} (h : stripPair chars st c = Except.ok st') :
    ∃ tr te, stripCol st.train_df c chars = Except.ok tr ∧
      stripCol st.test_df c chars = Except.ok te ∧
      st' = { st with train_df := tr, test_df := te } := by
  unfold stripPair at h
  cases htr : stripCol st.train_df c chars with
  | error e => rw [htr] at h; simp [Bind.bind, Except.bind] at h
  | ok tr =>
    rw [htr] at h
    simp only [Bind.bind, Except.bind] at h
    cases hte : stripCol st.test_df c chars with
    | error e => rw [hte] at h; cases h
    | ok te =>
      rw [hte] at h
      cases h
      exact ⟨tr, te, rfl, rfl, rfl⟩

theorem stripFold_ok :
    ∀ {cols : List String} {s s' : PrepState} {chars : String},
      List.foldlM (stripPair chars) s cols = Except.ok s' →
      (∀ c, ¬c ∈ cols → colValues s'.train_df c = colValues s.train_df c ∧
        colValues s'.test_df c = colValues s.test_df c) ∧
      colNames s'.train_df = colNames s.train_df ∧
      colNames s'.test_df = colNames s.test_df ∧
      (s.train_df.WF = true → s'.train_df.WF = true) ∧
      (s.test_df.WF = true → s'.test_df.WF = true) ∧
      s'.train_encoded_df = s.train_encoded_df ∧
      s'.test_encoded_df = s.test_encoded_df := by
  intro cols
  induction cols with
  | nil =>
    intro s s' chars h
    cases h
    exact ⟨fun c _ => ⟨rfl, rfl⟩, rfl, rfl, fun hw => hw, fun hw => hw, rfl, rfl⟩
  | cons c0 rest ih =>
    intro s s' chars h
    rw [List.foldlM_cons] at h
    cases hp : stripPair chars s c0 with
    | error e => rw [hp] at h; simp [Bind.bind, Except.bind] at h
    | ok s1 =>
      rw [hp] at h
      obtain ⟨hother, hn1, hn2, hw1, hw2, he1, he2⟩ := ih h
      obtain ⟨tr, te, htr, hte, hs1⟩ := stripPair_ok hp
      subst hs1
      refine ⟨?_, ?_, ?_, ?_, ?_, he1, he2⟩
      · intro c hc
        have hc0 : ¬c = c0 := fun hh => hc (hh ▸ List.mem_cons_self _ _)
        have hcrest : ¬c ∈ rest := fun hh => hc (List.mem_cons_of_mem _ hh)
        obtain ⟨ho1, ho2⟩ := hother c hcrest
        exact ⟨by rw [ho1]; exact stripCol_preserves htr hc0,
          by rw [ho2]; exact stripCol_preserves hte hc0⟩
      · rw [hn1]; exact stripCol_names htr
      · rw [hn2]; exact stripCol_names hte
      · intro hw; exact hw1 (stripCol_WF htr hw)
      · intro hw; exact hw2 (stripCol_WF hte hw)

theorem stripFold_strips :
    ∀ {cols : List String} {s s' : PrepState} {chars : String},
      List.foldlM (stripPair chars) s cols = Except.ok s' → cols.Nodup →
      ∀ c ∈ cols, ∃ (ss ts : List String),
        colValues s.train_df c = some (ss.map Value.str) ∧
        colValues s'.train_df c =
          some (ss.map (fun x => Value.str (pyStrip chars x))) ∧
        colValues s.test_df c = some (ts.map Value.str) ∧
        colValues s'.test_df c =
          some (ts.map (fun x => Value.str (pyStrip chars x))) := by
  intro cols
  induction cols with
  | nil => intro s s' chars _ _ c hc; cases hc
  | cons c0 rest ih =>
    intro s s' chars h hnd c hc
    rw [List.foldlM_cons] at h
    cases hp : stripPair chars s c0 with
    | error e => rw [hp] at h; simp [Bind.bind, Except.bind] at h
    | ok s1 =>
      rw [hp] at h
      obtain ⟨tr, te, htr, hte, hs1⟩ := stripPair_ok hp
      rw [List.nodup_cons] at hnd
      rcases List.mem_cons.mp hc with heq | hmem
      · obtain ⟨ss, hss1, hss2⟩ := stripCol_strips htr
        obtain ⟨ts, hts1, hts2⟩ := stripCol_strips hte
        obtain ⟨ho1, ho2⟩ := (stripFold_ok h).1 c (by rw [heq]; exact hnd.1)
        subst hs1
        rw [heq] at ho1 ho2 ⊢
        refine ⟨ss, ts, hss1, ?_, hts1, ?_⟩
        · rw [ho1]; exact hss2
        · rw [ho2]; exact hts2
      · have hc0 : ¬c = c0 := by
          intro hh
          rw [hh] at hmem
          exact hnd.1 hmem
        obtain ⟨ss, ts, h1, h2, h3, h4⟩ := ih h hnd.2 c hmem
        subst hs1
        refine ⟨ss, ts, ?_, h2, ?_, h4⟩
        · rw [← stripCol_preserves htr hc0]; exact h1
        · rw [← stripCol_preserves hte hc0]; exact h3

theorem stripFold_schema :
    ∀ {cols : List String} {s s' : PrepState} {chars : String},
      List.foldlM (stripPair chars) s cols = Except.ok s' →
      (∀ c ∈ cols, findType s.train_df.schema c = some "string" ∧
        findType s.test_df.schema c = some "string") →
      s'.train_df.schema = s.train_df.schema ∧
        s'.test_df.schema = s.test_df.schema := by
  intro cols
  induction cols with
  | nil =>
    intro s s' chars h _
    cases h
    exact ⟨rfl, rfl⟩
  | cons c0 rest ih =>
    intro s s' chars h hty
    rw [List.foldlM_cons] at h
    cases hp : stripPair chars s c0 with
    | error e => rw [hp] at h; simp [Bind.bind, Except.bind] at h
    | ok s1 =>
      rw [hp] at h
      obtain ⟨tr, te, htr, hte, hs1⟩ := stripPair_ok hp
      obtain ⟨hty1, hty2⟩ := hty c0 (List.mem_cons_self _ _)
      have htrsch : tr.schema = s.train_df.schema := by
        rw [(stripCol_ok htr).1]
        exact schemaSetString_of_string hty1
      have htesch : te.schema = s.test_df.schema := by
        rw [(stripCol_ok hte).1]
        exact schemaSetString_of_string hty2
      have hrec := ih h ?_
      · subst hs1
        obtain ⟨hr1, hr2⟩ := hrec
        exact ⟨by rw [hr1]; exact htrsch, by rw [hr2]; exact htesch⟩
      · intro c hcr
        obtain ⟨ha, hb⟩ := hty c (List.mem_cons_of_mem _ hcr)
        subst hs1
        constructor
        · rw [htrsch]; exact ha
        · rw [htesch]; exact hb

/-! ## `string_index` lemmas -/

theorem stringIndexOp_ok {s : PrepState} {cols : List String} {sfx : String}
    {s' : PrepState} (h : stringIndexOp s cols sfx = Except.ok s')
    (hwtr : s.train_df.WF = true) (hwte : s.test_df.WF = true) :
    (s'.train_df.schema =
        s.train_df.schema ++ cols.map (fun c => (c ++ sfx, "double"))) ∧
      (s'.test_df.schema =
        s.test_df.schema ++ cols.map (fun c => (c ++ sfx, "double"))) ∧
      (∀ {c : String} {vs : List Value}, colValues s.train_df c = some vs →
        colValues s'.train_df c = some vs) ∧
      (∀ {c : String} {vs : List Value}, colValues s.test_df c = some vs →
        colValues s'.test_df c = some vs) ∧
      s'.train_df.WF = true ∧ s'.test_df.WF = true ∧
      s'.train_encoded_df = s.train_encoded_df ∧
      s'.test_encoded_df = s.test_encoded_df ∧
      ∀ c ∈ cols, ∃ (xs ys : List String) (cs ds : List Value),
        colValues s.train_df c = some (xs.map Value.str) ∧
        colValues s.test_df c = some (ys.map Value.str) ∧
        indexCodes (indexerLabels xs) xs = some cs ∧
        indexCodes (indexerLabels xs) ys = some ds ∧
        colValues s'.train_df (c ++ sfx) = some cs ∧
        colValues s'.test_df (c ++ sfx) = some ds := by
  unfold stringIndexOp at h
  cases ha : assertAreFactors s cols with
  | error e => rw [ha] at h; simp [Bind.bind, Except.bind] at h
  | ok u =>
    rw [ha] at h
    simp only [Bind.bind, Except.bind] at h
    obtain ⟨F, hF, hsub⟩ := assertAreFactors_ok (by cases u; exact ha)
    cases hfit : pipelineFit (cols.map (fun c => (c, c ++ sfx))) s.train_df with
    | error e => rw [hfit] at h; cases h
    | ok ms =>
      rw [hfit] at h
      dsimp only at h
      cases htrans : pipelineTransform ms s.train_df with
      | error e => rw [htrans] at h; cases h
      | ok tr =>
        rw [htrans] at h
        dsimp only at h
        cases htest : pipelineTransform ms s.test_df with
        | error e => rw [htest] at h; cases h
        | ok te =>
          rw [htest] at h
          cases h
          have hintr : ∀ st ∈ cols.map (fun c => (c, c ++ sfx)),
              st.1 ∈ colNames s.train_df := by
            intro st hst
            obtain ⟨c, hc, hcs⟩ := List.mem_map.mp hst
            rw [← hcs]
            exact List.mem_map.mpr
              ⟨(c, "string"), (mem_factorsE hF).mp (hsub c hc), rfl⟩
          have hspec := pipelineFit_spec _ _ _ hfit hwtr hintr
          have hinms : ∀ m ∈ ms, m.inputCol ∈ colNames s.train_df := by
            intro m hm
            obtain ⟨st, hst, h1, _, _⟩ := forall2_mem_right hspec hm
            rw [h1]
            exact hintr st hst
          have hinmste : ∀ m ∈ ms, m.inputCol ∈ colNames s.test_df := by
            intro m hm
            obtain ⟨st, hst, h1, _, _⟩ := forall2_mem_right hspec hm
            obtain ⟨c, hc, hcs⟩ := List.mem_map.mp hst
            rw [h1, ← hcs]
            exact List.mem_map.mpr
              ⟨(c, "string"), (mem_factorsE_test hF).mp (hsub c hc), rfl⟩
          have houts : ∀ (cls : List String) (msl : List SIModel),
              List.Forall₂ (fun (st : String × String) (m : SIModel) =>
                m.outputCol = st.2) (cls.map (fun c => (c, c ++ sfx))) msl →
              msl.map (fun m => (m.outputCol, "double")) =
                cls.map (fun c => (c ++ sfx, "double")) := by
            intro cls
            induction cls with
            | nil =>
              intro msl hfa
              cases hfa
              rfl
            | cons a cls' ih =>
              intro msl hfa
              rw [List.map_cons] at hfa
              cases hfa with
              | cons hab htail =>
                rw [List.map_cons, List.map_cons, ih _ htail]
                congr 1
                rw [hab]
          have hout := houts cols ms (hspec.imp (fun _ _ hab => hab.2.1))
          refine ⟨?_, ?_, ?_, ?_, ?_, ?_, rfl, rfl, ?_⟩
          · rw [pipelineTransform_schema htrans, hout]
          · rw [pipelineTransform_schema htest, hout]
          · intro c vs hc
            exact pipelineTransform_preserves htrans hc
          · intro c vs hc
            exact pipelineTransform_preserves htest hc
          · exact pipelineTransform_WF htrans hwtr
          · exact pipelineTransform_WF htest hwte
          · intro c hc
            have hstage : ((c, c ++ sfx) : String × String) ∈
                cols.map (fun c => (c, c ++ sfx)) :=
              List.mem_map.mpr ⟨c, hc, rfl⟩
            obtain ⟨m, hm, h1, h2, xs, hxs1, hxs2⟩ :=
              forall2_mem_left hspec hstage
            obtain ⟨xs', cs, hx1, hx2, hx3⟩ :=
              pipelineTransform_creates htrans hwtr hinms m hm
            obtain ⟨ys, ds, hy1, hy2, hy3⟩ :=
              pipelineTransform_creates htest hwte hinmste m hm
            rw [h1] at hx1 hy1
            rw [hxs1] at hx1
            have hxeq : xs.map Value.str = xs'.map Value.str := Option.some.inj hx1
            have hinj : Function.Injective Value.str := fun a b hv => Value.str.inj hv
            have hxx : xs = xs' := List.map_injective_iff.mpr hinj hxeq
            subst hxx
            rw [hxs2] at hx2 hy2
            have h2' : m.outputCol = c ++ sfx := h2
            rw [h2'] at hx3 hy3
            exact ⟨xs, ys, cs, ds, hxs1, hy1, hx2, hy2, hx3, hy3⟩

/-! ## Step decomposition lemmas -/

theorem runStep_ok {f : PrepState → Except String PrepState} {s s1 : PrepState}
    (hf : f s = Except.ok s1) : runStep f (s, none) = (s1, none) := by
  unfold runStep
  rw [hf]

theorem runStep_err {f : PrepState → Except String PrepState} {s : PrepState}
    {e : String} (hf : f s = Except.error e) :
    runStep f (s, none) = (s, some e) := by
  unfold runStep
  rw [hf]

theorem runStep_some (f : PrepState → Except String PrepState) (s : PrepState)
    (e : String) : runStep f (s, some e) = (s, some e) := rfl

theorem prepareToModelE_parts {s : PrepState} {t c : String} {s' : PrepState}
    (h : prepareToModelE s t c = Except.ok s') :
    ∃ s1 s2 s3 s4, stripStep s c = Except.ok s1 ∧
      indexStep s1 = Except.ok s2 ∧
      oneHotStep s2 t = Except.ok s3 ∧
      assembleStep s3 t = Except.ok s4 ∧
      selectStep s4 t = Except.ok s' := by
  unfold prepareToModelE prepareToModelRun at h
  cases h1 : stripStep s c with
  | error e =>
    rw [runStep_err h1, runStep_some, runStep_some, runStep_some,
      runStep_some] at h
    cases h
  | ok s1 =>
    rw [runStep_ok h1] at h
    cases h2 : indexStep s1 with
    | error e =>
      rw [runStep_err h2, runStep_some, runStep_some, runStep_some] at h
      cases h
    | ok s2 =>
      rw [runStep_ok h2] at h
      cases h3 : oneHotStep s2 t with
      | error e =>
        rw [runStep_err h3, runStep_some, runStep_some] at h
        cases h
      | ok s3 =>
        rw [runStep_ok h3] at h
        cases h4 : assembleStep s3 t with
        | error e =>
          rw [runStep_err h4, runStep_some] at h
          cases h
        | ok s4 =>
          rw [runStep_ok h4] at h
          cases h5 : selectStep s4 t with
          | error e =>
            rw [runStep_err h5] at h
            cases h
          | ok s5 =>
            rw [runStep_ok h5] at h
            cases h
            exact ⟨s1, s2, s3, s4, rfl, h2, h3, h4, h5⟩

theorem stripColumnsOp_parts {s : PrepState} {cols : List String} {ts : String}
    {s' : PrepState} (h : stripColumnsOp s cols ts = Except.ok s') :
    ∃ F, factorsE s = Except.ok F ∧ (∀ c ∈ cols, c ∈ F) ∧
      List.foldlM (stripPair (ts ++ " ")) s cols = Except.ok s' := by
  unfold stripColumnsOp at h
  cases ha : assertAreFactors s cols with
  | error e => rw [ha] at h; simp [Bind.bind, Except.bind] at h
  | ok u =>
    rw [ha] at h
    simp only [Bind.bind, Except.bind] at h
    obtain ⟨F, hF, hsub⟩ := assertAreFactors_ok (by cases u; exact ha)
    exact ⟨F, hF, hsub, h⟩

theorem stripStep_parts {s : PrepState} {ts : String} {s' : PrepState}
    (h : stripStep s ts = Except.ok s') :
    ∃ F, factorsE s = Except.ok F ∧ stripColumnsOp s F ts = Except.ok s' := by
  unfold stripStep at h
  cases hF : factorsE s with
  | error e => rw [hF] at h; simp [Bind.bind, Except.bind] at h
  | ok F =>
    rw [hF] at h
    exact ⟨F, rfl, h⟩

theorem indexStep_parts {s : PrepState} {s' : PrepState}
    (h : indexStep s = Except.ok s') :
    ∃ F, factorsE s = Except.ok F ∧
      stringIndexOp s F indexed_suffix = Except.ok s' := by
  unfold indexStep at h
  cases hF : factorsE s with
  | error e => rw [hF] at h; simp [Bind.bind, Except.bind] at h
  | ok F =>
    rw [hF] at h
    exact ⟨F, rfl, h⟩

theorem oneHotEncodeColumnsE_ok {s : PrepState} {t : String} {cols : List String}
    (h : oneHotEncodeColumnsE s t = Except.ok cols) :
    ∃ F, factorsE s = Except.ok F ∧
      cols = (F.filter (fun f => decide ¬f = t)).map
        (fun f => f ++ indexed_suffix) := by
  unfold oneHotEncodeColumnsE at h
  cases hF : factorsE s with
  | error e => rw [hF] at h; simp [Bind.bind, Except.bind] at h
  | ok F =>
    rw [hF] at h
    simp only [Bind.bind, Except.bind] at h
    cases h
    exact ⟨F, rfl, rfl⟩

theorem oneHotStep_parts {s : PrepState} {t : String} {s' : PrepState}
    (h : oneHotStep s t = Except.ok s') :
    ∃ cols, oneHotEncodeColumnsE s t = Except.ok cols ∧
      oneHotEncodeOp s cols one_hot_suffix = Except.ok s' := by
  unfold oneHotStep at h
  cases hc : oneHotEncodeColumnsE s t with
  | error e => rw [hc] at h; simp [Bind.bind, Except.bind] at h
  | ok cols =>
    rw [hc] at h
    exact ⟨cols, rfl, h⟩

theorem columnsToAssembleE_ok {s : PrepState} {t : String} {L : List String}
    (h : columnsToAssembleE s t = Except.ok L) :
    ∃ N, numericColumnsE s = Except.ok N ∧
      L = N.filter (fun c => decide ¬c = t && !strEndsWith c indexed_suffix) ++
        (colNames s.train_df).filter
          (fun c => strContains c (indexed_suffix ++ one_hot_suffix)) := by
  unfold columnsToAssembleE at h
  cases hN : numericColumnsE s with
  | error e => rw [hN] at h; simp [Bind.bind, Except.bind] at h
  | ok N =>
    rw [hN] at h
    simp only [Bind.bind, Except.bind] at h
    cases h
    exact ⟨N, rfl, rfl⟩

theorem assembleStep_parts {s : PrepState} {t : String} {s' : PrepState}
    (h : assembleStep s t = Except.ok s') :
    ∃ cols, columnsToAssembleE s t = Except.ok cols ∧
      assembleFeaturesOp s cols "features" = Except.ok s' := by
  unfold assembleStep at h
  cases hc : columnsToAssembleE s t with
  | error e => rw [hc] at h; simp [Bind.bind, Except.bind] at h
  | ok cols =>
    rw [hc] at h
    exact ⟨cols, rfl, h⟩

theorem selectStep_parts {s : PrepState} {t : String} {s' : PrepState}
    (h : selectStep s t = Except.ok s') :
    ∃ F tr te, factorsE s = Except.ok F ∧
      selectToModel s.train_df
        (if t ∈ F then t ++ indexed_suffix else t) = Except.ok tr ∧
      selectToModel s.test_df
        (if t ∈ F then t ++ indexed_suffix else t) = Except.ok te ∧
      s' = { s with train_encoded_df := some tr, test_encoded_df := some te } := by
  unfold selectStep at h
  cases hF : factorsE s with
  | error e => rw [hF] at h; simp [Bind.bind, Except.bind] at h
  | ok F =>
    rw [hF] at h
    simp only [Bind.bind, Except.bind] at h
    cases htr : selectToModel s.train_df
        (if t ∈ F then t ++ indexed_suffix else t) with
    | error e => rw [htr] at h; cases h
    | ok tr =>
      rw [htr] at h
      dsimp only at h
      cases hte : selectToModel s.test_df
          (if t ∈ F then t ++ indexed_suffix else t) with
      | error e => rw [hte] at h; cases h
      | ok te =>
        rw [hte] at h
        cases h
        exact ⟨F, tr, te, rfl, htr, hte, rfl⟩

theorem mkState_ok {train test : DataFrame} {s0 : PrepState}
    (h : DataPreprocessor.mkState train test = Except.ok s0) :
    train.schema = test.schema ∧ s0 = ⟨train, test, none, none⟩ := by
  unfold DataPreprocessor.mkState at h
  split at h
  · cases h
    exact ⟨by assumption, rfl⟩
  · cases h

/-- C1: with a numeric target, a successful `prepare_to_model` produces
encoded train/test dataframes with exactly the columns `label` and
`features`, and the `label` values are the original target values
unchanged. -/
theorem claim_C1_numeric_target {train test : DataFrame} {target : String}
    {s0 s' : PrepState} {dt : String}
    (hinit : DataPreprocessor.mkState train test = Except.ok s0)
    (hwtr : train.WF = true) (hwte : test.WF = true)
    (hnd : (colNames train).Nodup)
    (hdt : findType train.schema target = some dt)
    (hnum : dt = "int" ∨ dt = "double")
    (hrun : prepareToModelE s0 target " " = Except.ok s') :
    ∃ encTr encTe, s'.train_encoded_df = some encTr ∧
      s'.test_encoded_df = some encTe ∧
      colNames encTr = ["label", "features"] ∧
      colNames encTe = ["label", "features"] ∧
      colValues encTr "label" = colValues train target ∧
      colValues encTe "label" = colValues test target := by
  obtain ⟨hsch, hs0⟩ := mkState_ok hinit
  subst hs0
  have hdts : ¬dt = "string" := by
    rcases hnum with hnum | hnum <;> rw [hnum] <;> decide
  have htmem : target ∈ colNames train :=
    List.mem_map.mpr ⟨(target, dt), findType_mem hdt, rfl⟩
  have htmemte : target ∈ colNames test := by
    unfold colNames
    rw [← hsch]
    exact htmem
  obtain ⟨tvs, htvs⟩ := colValues_total hwtr htmem
  obtain ⟨uvs, huvs⟩ := colValues_total hwte htmemte
  obtain ⟨s1, s2, s3, s4, h1, h2, h3, h4, h5⟩ := prepareToModelE_parts hrun
  -- step 1: stripping does not touch the numeric target
  obtain ⟨F, hF, hso⟩ := stripStep_parts h1
  obtain ⟨F', hF', _, hfold⟩ := stripColumnsOp_parts hso
  rw [hF] at hF'
  cases hF'
  have htF : ¬target ∈ F := by
    intro hmem
    have h1' := (mem_factorsE hF).mp hmem
    have h2' := findType_of_mem_nodup hnd h1'
    rw [hdt] at h2'
    exact hdts (Option.some.inj h2')
  obtain ⟨hother, hn1, hn2, hwf1, hwf2, _, _⟩ := stripFold_ok hfold
  obtain ⟨hov1, hov2⟩ := hother target htF
  have hty : ∀ c ∈ F, findType train.schema c = some "string" ∧
      findType test.schema c = some "string" := by
    intro c hc
    have hc1 := (mem_factorsE hF).mp hc
    have hc2 := (mem_factorsE_test hF).mp hc
    have hndte : (colNames test).Nodup := by
      unfold colNames
      rw [← hsch]
      exact hnd
    exact ⟨findType_of_mem_nodup hnd hc1, findType_of_mem_nodup hndte hc2⟩
  obtain ⟨hsch1tr, hsch1te⟩ := stripFold_schema hfold hty
  have hv1tr : colValues s1.train_df target = some tvs := by rw [hov1]; exact htvs
  have hv1te : colValues s1.test_df target = some uvs := by rw [hov2]; exact huvs
  -- step 2: string indexing appends columns
  obtain ⟨F1, hF1, hsio⟩ := indexStep_parts h2
  obtain ⟨hsch2tr, hsch2te, hpr2tr, hpr2te, hwf2tr, hwf2te, _, _, _⟩ :=
    stringIndexOp_ok hsio (hwf1 hwtr) (hwf2 hwte)
  have hv2tr := hpr2tr hv1tr
  have hv2te := hpr2te hv1te
  -- step 3: one-hot encoding appends columns
  obtain ⟨cols2, hcols2, hohe⟩ := oneHotStep_parts h3
  obtain ⟨hsch3tr, hsch3te, hpr3tr, hpr3te, hwf3tr, hwf3te, _, _⟩ :=
    oneHotEncodeOp_ok hohe
  have hv3tr := hpr3tr hv2tr
  have hv3te := hpr3te hv2te
  -- step 4: assembling appends the features column
  obtain ⟨colsA, hcolsA, hasm⟩ := assembleStep_parts h4
  obtain ⟨hof1, hof2, hsch4tr, hsch4te, hpr4tr, hpr4te, hwf4tr, hwf4te, _, _⟩ :=
    assembleFeaturesOp_ok hasm
  have hv4tr := hpr4tr hv3tr
  have hv4te := hpr4te hv3te
  -- the target is not a factor in the final state
  obtain ⟨F4, tr, te, hF4, htr', hte', hs'⟩ := selectStep_parts h5
  have hsch4 : s4.train_df.schema =
      train.schema ++ F1.map (fun c => (c ++ indexed_suffix, "double")) ++
        cols2.map (fun c => (c ++ one_hot_suffix, "vector")) ++
        [("features", "vector")] := by
    rw [hsch4tr, hsch3tr, hsch2tr, hsch1tr]
  have htF4 : ¬target ∈ F4 := by
    intro hmem
    have hp := (mem_factorsE hF4).mp hmem
    rw [hsch4] at hp
    rcases List.mem_append.mp hp with hp | hp
    · rcases List.mem_append.mp hp with hp | hp
      · rcases List.mem_append.mp hp with hp | hp
        · have h2' := findType_of_mem_nodup hnd hp
          rw [hdt] at h2'
          exact hdts (Option.some.inj h2')
        · obtain ⟨c, _, hc2⟩ := List.mem_map.mp hp
          have hsnd : "double" = "string" := congrArg Prod.snd hc2
          exact absurd hsnd (by decide)
      · obtain ⟨c, _, hc2⟩ := List.mem_map.mp hp
        have hsnd : "vector" = "string" := congrArg Prod.snd hc2
        exact absurd hsnd (by decide)
    · have hp2 := List.mem_singleton.mp hp
      have hsnd : "string" = "vector" := congrArg Prod.snd hp2
      exact absurd hsnd (by decide)
  rw [if_neg htF4] at htr' hte'
  -- the target column still exists before assembly, so it is not `features`
  have htmem3 : target ∈ colNames s3.train_df := by
    unfold colNames
    rw [hsch3tr, hsch2tr, hsch1tr]
    rw [List.map_append, List.map_append]
    exact List.mem_append_left _ (List.mem_append_left _ htmem)
  have hnef : ¬target = "features" := by
    intro hh
    rw [hh] at htmem3
    exact hof1 htmem3
  obtain ⟨t1, t2, hft, hstr, vs, hvs, hlab⟩ := selectToModel_ok htr' hnef
  obtain ⟨u1, u2, hfu, hste, ws, hws, hlabte⟩ := selectToModel_ok hte' hnef
  rw [hv4tr] at hvs
  cases hvs
  rw [hv4te] at hws
  cases hws
  subst hs'
  refine ⟨tr, te, rfl, rfl, ?_, ?_, ?_, ?_⟩
  · unfold colNames
    rw [hstr]
    rfl
  · unfold colNames
    rw [hste]
    rfl
  · rw [hlab, htvs]
  · rw [hlabte, huvs]

/-- Concrete train dataframe for exercising the pipeline. -/
def c1train : DataFrame :=
  ⟨[("color", "string"), ("size", "int")],
   [[Value.str " red ", Value.num 1],
    [Value.str "blue", Value.num 2],
    [Value.str " red ", Value.num 3]]⟩

/-- Concrete test dataframe for exercising the pipeline. -/
def c1test : DataFrame :=
  ⟨[("color", "string"), ("size", "int")],
   [[Value.str "blue", Value.num 5],
    [Value.str "red ", Value.num 6]]⟩

/-- The state built by the constructor on the concrete pair. -/
def c1s0 : PrepState := ⟨c1train, c1test, none, none⟩

/-- The state after a successful `prepare_to_model("size")` run. -/
def c1final : PrepState := (prepareToModelRun c1s0 "size" " ").1

theorem claim_C1_numeric_target_witness :
    (DataPreprocessor.mkState c1train c1test = Except.ok c1s0 ∧
      c1train.WF = true ∧ c1test.WF = true ∧ (colNames c1train).Nodup ∧
      findType c1train.schema "size" = some "int" ∧
      prepareToModelE c1s0 "size" " " = Except.ok c1final) ∧
    ∃ encTr encTe, c1final.train_encoded_df = some encTr ∧
      c1final.test_encoded_df = some encTe ∧
      colNames encTr = ["label", "features"] ∧
      colNames encTe = ["label", "features"] ∧
      colValues encTr "label" = colValues c1train "size" ∧
      colValues encTe "label" = colValues c1test "size" :=
  ⟨⟨by decide, by decide, by decide, by decide, by decide, by decide⟩,
    @claim_C1_numeric_target c1train c1test "size" c1s0 c1final "int"
      (by decide) (by decide) (by decide) (by decide) (by decide)
      (Or.inl rfl) (by decide)⟩

/-- C2: with a factor (string-typed) target, a successful `prepare_to_model`
takes the label from the `<target>_cat` column, whose values are the integer
codes assigned by the indexer fitted on the train dataset's (stripped)
target column, not the original strings; the same train-fitted vocabulary
codes the test labels. -/
theorem claim_C2_factor_target {train test : DataFrame} {target : String}
    {s0 s' : PrepState}
    (hinit : DataPreprocessor.mkState train test = Except.ok s0)
    (hwtr : train.WF = true) (hwte : test.WF = true)
    (hnd : (colNames train).Nodup)
    (hdt : findType train.schema target = some "string")
    (hrun : prepareToModelE s0 target " " = Except.ok s') :
    ∃ (encTr encTe : DataFrame) (xs ys : List String) (cs ds : List Value),
      s'.train_encoded_df = some encTr ∧
      s'.test_encoded_df = some encTe ∧
      colNames encTr = ["label", "features"] ∧
      colNames encTe = ["label", "features"] ∧
      colValues train target = some (xs.map Value.str) ∧
      colValues test target = some (ys.map Value.str) ∧
      indexCodes (indexerLabels (xs.map (pyStrip (" " ++ " "))))
        (xs.map (pyStrip (" " ++ " "))) = some cs ∧
      indexCodes (indexerLabels (xs.map (pyStrip (" " ++ " "))))
        (ys.map (pyStrip (" " ++ " "))) = some ds ∧
      colValues encTr "label" = some cs ∧
      colValues encTe "label" = some ds ∧
      colValues s'.train_df (target ++ indexed_suffix) = some cs ∧
      colValues s'.test_df (target ++ indexed_suffix) = some ds := by
  obtain ⟨hsch, hs0⟩ := mkState_ok hinit
  subst hs0
  obtain ⟨s1, s2, s3, s4, h1, h2, h3, h4, h5⟩ := prepareToModelE_parts hrun
  obtain ⟨F, hF, hso⟩ := stripStep_parts h1
  obtain ⟨F', hF', _, hfold⟩ := stripColumnsOp_parts hso
  rw [hF] at hF'
  cases hF'
  have htmemF : target ∈ F := (mem_factorsE hF).mpr (findType_mem hdt)
  have hndF : F.Nodup := by
    obtain ⟨hFeq, _⟩ := factorsE_ok hF
    rw [hFeq]
    exact List.Nodup.sublist (List.Sublist.map Prod.fst (List.filter_sublist _)) hnd
  obtain ⟨ss, ts, hss1, hss2, hts1, hts2⟩ :=
    stripFold_strips hfold hndF target htmemF
  have hty : ∀ c ∈ F, findType train.schema c = some "string" ∧
      findType test.schema c = some "string" := by
    intro c hc
    have hc1 := (mem_factorsE hF).mp hc
    have hc2 := (mem_factorsE_test hF).mp hc
    have hndte : (colNames test).Nodup := by
      unfold colNames
      rw [← hsch]
      exact hnd
    exact ⟨findType_of_mem_nodup hnd hc1, findType_of_mem_nodup hndte hc2⟩
  obtain ⟨hsch1tr, hsch1te⟩ := stripFold_schema hfold hty
  obtain ⟨_, _, _, hwf1, hwf2, _, _⟩ := stripFold_ok hfold
  -- step 2: the indexer for the target is fitted on the stripped train column
  obtain ⟨F1, hF1, hsio⟩ := indexStep_parts h2
  have hF1F : F1 = F := by
    obtain ⟨hF1eq, _⟩ := factorsE_ok hF1
    obtain ⟨hFeq, _⟩ := factorsE_ok hF
    rw [hF1eq, hsch1tr, ← hFeq]
  obtain ⟨hsch2tr, hsch2te, hpr2tr, hpr2te, hwf2tr, hwf2te, _, _, hcodes⟩ :=
    stringIndexOp_ok hsio (hwf1 hwtr) (hwf2 hwte)
  obtain ⟨xs', ys', cs, ds, hxs'1, hys'1, hcs, hds, hv2tr, hv2te⟩ :=
    hcodes target (by rw [hF1F]; exact htmemF)
  have hinj : Function.Injective Value.str := fun a b hv => Value.str.inj hv
  have hxs'eq : xs' = ss.map (pyStrip (" " ++ " ")) := by
    rw [hss2] at hxs'1
    have h0 := Option.some.inj hxs'1
    have h0' : List.map Value.str (List.map (pyStrip (" " ++ " ")) ss) =
        List.map Value.str xs' := by
      rw [List.map_map]
      exact h0
    exact (List.map_injective_iff.mpr hinj h0').symm
  have hys'eq : ys' = ts.map (pyStrip (" " ++ " ")) := by
    rw [hts2] at hys'1
    have h0 := Option.some.inj hys'1
    have h0' : List.map Value.str (List.map (pyStrip (" " ++ " ")) ts) =
        List.map Value.str ys' := by
      rw [List.map_map]
      exact h0
    exact (List.map_injective_iff.mpr hinj h0').symm
  subst hxs'eq
  subst hys'eq
  -- steps 3-4 preserve the indexed column
  obtain ⟨cols2, hcols2, hohe⟩ := oneHotStep_parts h3
  obtain ⟨hsch3tr, hsch3te, hpr3tr, hpr3te, hwf3tr, hwf3te, _, _⟩ :=
    oneHotEncodeOp_ok hohe
  have hv3tr := hpr3tr hv2tr
  have hv3te := hpr3te hv2te
  obtain ⟨colsA, hcolsA, hasm⟩ := assembleStep_parts h4
  obtain ⟨hof1, hof2, hsch4tr, hsch4te, hpr4tr, hpr4te, hwf4tr, hwf4te, _, _⟩ :=
    assembleFeaturesOp_ok hasm
  have hv4tr := hpr4tr hv3tr
  have hv4te := hpr4te hv3te
  -- the target is a factor in the final state, so the label is `<target>_cat`
  obtain ⟨F4, tr, te, hF4, htr', hte', hs'⟩ := selectStep_parts h5
  have htF4 : target ∈ F4 := by
    rw [mem_factorsE hF4, hsch4tr, hsch3tr, hsch2tr, hsch1tr]
    exact List.mem_append_left _ (List.mem_append_left _
      (List.mem_append_left _ (findType_mem hdt)))
  rw [if_pos htF4] at htr' hte'
  have htcmem3 : target ++ indexed_suffix ∈ colNames s3.train_df := by
    unfold colNames
    rw [hsch3tr, hsch2tr]
    rw [List.map_append, List.map_append]
    refine List.mem_append_left _ (List.mem_append_right _ ?_)
    refine List.mem_map.mpr ⟨(target ++ indexed_suffix, "double"), ?_, rfl⟩
    exact List.mem_map.mpr ⟨target, by rw [hF1F]; exact htmemF, rfl⟩
  have hnef : ¬target ++ indexed_suffix = "features" := by
    intro hh
    rw [hh] at htcmem3
    exact hof1 htcmem3
  obtain ⟨t1, t2, hft, hstr, vs, hvs, hlab⟩ := selectToModel_ok htr' hnef
  obtain ⟨u1, u2, hfu, hste, ws, hws, hlabte⟩ := selectToModel_ok hte' hnef
  rw [hv4tr] at hvs
  cases hvs
  rw [hv4te] at hws
  cases hws
  subst hs'
  refine ⟨tr, te, ss, ts, cs, ds, rfl, rfl, ?_, ?_, hss1, hts1, hcs, hds,
    hlab, hlabte, hv4tr, hv4te⟩
  · unfold colNames
    rw [hstr]
    rfl
  · unfold colNames
    rw [hste]
    rfl

/-- The state after a successful `prepare_to_model("color")` run on the
concrete pair. -/
def c2final : PrepState := (prepareToModelRun c1s0 "color" " ").1

theorem claim_C2_factor_target_witness :
    (DataPreprocessor.mkState c1train c1test = Except.ok c1s0 ∧
      c1train.WF = true ∧ c1test.WF = true ∧ (colNames c1train).Nodup ∧
      findType c1train.schema "color" = some "string" ∧
      prepareToModelE c1s0 "color" " " = Except.ok c2final) ∧
    ∃ (encTr encTe : DataFrame) (xs ys : List String) (cs ds : List Value),
      c2final.train_encoded_df = some encTr ∧
      c2final.test_encoded_df = some encTe ∧
      colNames encTr = ["label", "features"] ∧
      colNames encTe = ["label", "features"] ∧
      colValues c1train "color" = some (xs.map Value.str) ∧
      colValues c1test "color" = some (ys.map Value.str) ∧
      indexCodes (indexerLabels (xs.map (pyStrip (" " ++ " "))))
        (xs.map (pyStrip (" " ++ " "))) = some cs ∧
      indexCodes (indexerLabels (xs.map (pyStrip (" " ++ " "))))
        (ys.map (pyStrip (" " ++ " "))) = some ds ∧
      colValues encTr "label" = some cs ∧
      colValues encTe "label" = some ds ∧
      colValues c2final.train_df ("color" ++ indexed_suffix) = some cs ∧
      colValues c2final.test_df ("color" ++ indexed_suffix) = some ds :=
  ⟨⟨by decide, by decide, by decide, by decide, by decide, by decide⟩,
    @claim_C2_factor_target c1train c1test "color" c1s0 c2final
      (by decide) (by decide) (by decide) (by decide) (by decide) (by decide)⟩

/-- C5: constructing the preprocessor from train/test dataframes whose
schemas differ fails immediately with the constructor's assertion message,
so no state is ever produced and no other method can be invoked. -/
theorem claim_C5_schema_mismatch {train test : DataFrame}
    (h : ¬train.schema = test.schema) :
    DataPreprocessor.mkState train test =
      Except.error "Train and test dataframes must have the same schema" := by
  unfold DataPreprocessor.mkState
  rw [if_neg h]

/-- A pair of dataframes whose schemas differ in one column's type. -/
def c5test : DataFrame := ⟨[("color", "string"), ("size", "double")], []⟩

theorem claim_C5_schema_mismatch_witness :
    ¬c1train.schema = c5test.schema ∧
      DataPreprocessor.mkState c1train c5test =
        Except.error "Train and test dataframes must have the same schema" :=
  ⟨by decide, claim_C5_schema_mismatch (by decide)⟩

theorem nodup_pair_unique {sch : List (String × String)} {c a b : String}
    (hnd : (sch.map Prod.fst).Nodup) (ha : (c, a) ∈ sch) (hb : (c, b) ∈ sch) :
    a = b := by
  have h1 := findType_of_mem_nodup hnd ha
  have h2 := findType_of_mem_nodup hnd hb
  rw [h1] at h2
  exact Option.some.inj h2

/-- C4: with identical train/test schemas (and distinct column names),
`factors` and `numeric_columns` succeed, are computed as the schema-ordered
string-typed resp. double/int-typed column name lists, coincide between
train and test, are disjoint, and cover exactly the columns of the two
recognized type families. -/
theorem claim_C4_partition {s : PrepState}
    (hsch : s.train_df.schema = s.test_df.schema)
    (hnd : (colNames s.train_df).Nodup) :
    ∃ F N, factorsE s = Except.ok F ∧ numericColumnsE s = Except.ok N ∧
      F = (s.train_df.schema.filter
        (fun p => p.2 ∈ (["string"] : List String))).map Prod.fst ∧
      N = (s.train_df.schema.filter
        (fun p => p.2 ∈ (["double", "int"] : List String))).map Prod.fst ∧
      F = (s.test_df.schema.filter
        (fun p => p.2 ∈ (["string"] : List String))).map Prod.fst ∧
      N = (s.test_df.schema.filter
        (fun p => p.2 ∈ (["double", "int"] : List String))).map Prod.fst ∧
      (∀ c, ¬(c ∈ F ∧ c ∈ N)) ∧
      (∀ c t, (c, t) ∈ s.train_df.schema →
        ((t = "string" ∨ t = "double" ∨ t = "int") ↔ (c ∈ F ∨ c ∈ N))) := by
  have hF : factorsE s = Except.ok ((s.train_df.schema.filter
      (fun p => p.2 ∈ (["string"] : List String))).map Prod.fst) := by
    unfold factorsE getColsByTypes
    dsimp only
    rw [← hsch, if_pos rfl]
  have hN : numericColumnsE s = Except.ok ((s.train_df.schema.filter
      (fun p => p.2 ∈ (["double", "int"] : List String))).map Prod.fst) := by
    unfold numericColumnsE getColsByTypes
    dsimp only
    rw [← hsch, if_pos rfl]
  refine ⟨_, _, hF, hN, rfl, rfl, by rw [← hsch], by rw [← hsch], ?_, ?_⟩
  · intro c ⟨hcF, hcN⟩
    have h1 := (mem_factorsE hF).mp hcF
    obtain ⟨t, h2, h3⟩ := (mem_numericE hN).mp hcN
    have heq := nodup_pair_unique hnd h1 h2
    rcases h3 with h3 | h3 <;> rw [h3] at heq <;> exact absurd heq (by decide)
  · intro c t hmem
    constructor
    · intro hfam
      rcases hfam with hfam | hfam
      · exact Or.inl ((mem_factorsE hF).mpr (by rwa [hfam] at hmem))
      · exact Or.inr ((mem_numericE hN).mpr ⟨t, hmem, hfam⟩)
    · intro hmem2
      rcases hmem2 with hmem2 | hmem2
      · have h1 := (mem_factorsE hF).mp hmem2
        have := nodup_pair_unique hnd hmem h1
        exact Or.inl this
      · obtain ⟨t', h2, h3⟩ := (mem_numericE hN).mp hmem2
        have := nodup_pair_unique hnd hmem h2
        rw [this]
        exact Or.inr h3

/-- A state with one column of each recognized family and one of an
unrecognized declared type. -/
def c4s : PrepState :=
  ⟨⟨[("a", "string"), ("b", "int"), ("c", "double"), ("d", "bigint")], []⟩,
   ⟨[("a", "string"), ("b", "int"), ("c", "double"), ("d", "bigint")], []⟩,
   none, none⟩

theorem claim_C4_partition_witness :
    (c4s.train_df.schema = c4s.test_df.schema ∧ (colNames c4s.train_df).Nodup) ∧
    ∃ F N, factorsE c4s = Except.ok F ∧ numericColumnsE c4s = Except.ok N ∧
      F = (c4s.train_df.schema.filter
        (fun p => p.2 ∈ (["string"] : List String))).map Prod.fst ∧
      N = (c4s.train_df.schema.filter
        (fun p => p.2 ∈ (["double", "int"] : List String))).map Prod.fst ∧
      F = (c4s.test_df.schema.filter
        (fun p => p.2 ∈ (["string"] : List String))).map Prod.fst ∧
      N = (c4s.test_df.schema.filter
        (fun p => p.2 ∈ (["double", "int"] : List String))).map Prod.fst ∧
      (∀ c, ¬(c ∈ F ∧ c ∈ N)) ∧
      (∀ c t, (c, t) ∈ c4s.train_df.schema →
        ((t = "string" ∨ t = "double" ∨ t = "int") ↔ (c ∈ F ∨ c ∈ N))) :=
  ⟨⟨by decide, by decide⟩, claim_C4_partition (by decide) (by decide)⟩

/-- C6: `strip_columns` fails (before touching any data) when some listed
column is not a factor; on success every listed column's values, in both
train and test, are replaced by the value stripped of the given characters
plus a space. -/
theorem claim_C6_strip_columns {s : PrepState} {cols : List String}
    {ts : String} {F : List String} (hF : factorsE s = Except.ok F) :
    ((∃ c ∈ cols, ¬c ∈ F) →
      stripColumnsOp s cols ts = Except.error "Some column is not a factor") ∧
    (∀ s', stripColumnsOp s cols ts = Except.ok s' → cols.Nodup →
      ∀ c ∈ cols, ∃ (ss us : List String),
        colValues s.train_df c = some (ss.map Value.str) ∧
        colValues s'.train_df c =
          some (ss.map (fun x => Value.str (pyStrip (ts ++ " ") x))) ∧
        colValues s.test_df c = some (us.map Value.str) ∧
        colValues s'.test_df c =
          some (us.map (fun x => Value.str (pyStrip (ts ++ " ") x)))) := by
  constructor
  · intro ⟨c, hc, hcF⟩
    unfold stripColumnsOp
    rw [assertAreFactors_error hF hc hcF]
    rfl
  · intro s' h hnd c hc
    obtain ⟨F', hF', _, hfold⟩ := stripColumnsOp_parts h
    exact stripFold_strips hfold hnd c hc

/-- A state whose single factor column holds the spec's example value. -/
def c6s : PrepState :=
  ⟨⟨[("c", "string")], [[Value.str " red "]]⟩,
   ⟨[("c", "string")], [[Value.str " red "]]⟩,
   none, none⟩

/-- The state after stripping the example column. -/
def c6s' : PrepState :=
  match stripColumnsOp c6s ["c"] " " with
  | Except.ok s => s
  | Except.error _ => c6s

theorem claim_C6_strip_columns_witness :
    (factorsE c6s = Except.ok ["c"] ∧
      stripColumnsOp c6s ["c"] " " = Except.ok c6s' ∧
      stripColumnsOp c6s ["z"] " " =
        Except.error "Some column is not a factor" ∧
      colValues c6s'.train_df "c" = some [Value.str "red"] ∧
      colValues c6s'.test_df "c" = some [Value.str "red"] ∧
      pyStrip (" " ++ " ") " red " = "red") ∧
    (((∃ c ∈ ["c"], ¬c ∈ ["c"]) →
      stripColumnsOp c6s ["c"] " " = Except.error "Some column is not a factor") ∧
    (∀ s', stripColumnsOp c6s ["c"] " " = Except.ok s' →
      (["c"] : List String).Nodup →
      ∀ c ∈ (["c"] : List String), ∃ (ss us : List String),
        colValues c6s.train_df c = some (ss.map Value.str) ∧
        colValues s'.train_df c =
          some (ss.map (fun x => Value.str (pyStrip (" " ++ " ") x))) ∧
        colValues c6s.test_df c = some (us.map Value.str) ∧
        colValues s'.test_df c =
          some (us.map (fun x => Value.str (pyStrip (" " ++ " ") x))))) :=
  ⟨⟨by decide, by decide, by decide, by decide, by decide, by decide⟩,
    claim_C6_strip_columns (by decide)⟩

/-- C10: column classification whitelists the declared dtype strings
`string` (factor) and `double`/`int` (numeric); a column of any other
declared type (e.g. `float`, `bigint`, `decimal`) is neither a factor nor a
numeric column, so the classification-driven operations (stripping and
indexing of factors, the numeric part of feature assembly, the
`explore_numeric_columns` loop) skip it silently (its name is assumed not
to contain the `_cat_vec` marker that the assembly scan matches by name). -/
theorem claim_C10_type_whitelist {s : PrepState} {c t : String}
    (hnd : (colNames s.train_df).Nodup)
    (hmem : (c, t) ∈ s.train_df.schema)
    (ht : ¬t = "string" ∧ ¬t = "double" ∧ ¬t = "int")
    (hname : strContains c (indexed_suffix ++ one_hot_suffix) = false) :
    (∀ F, factorsE s = Except.ok F → ¬c ∈ F) ∧
    (∀ N, numericColumnsE s = Except.ok N → ¬c ∈ N) ∧
    (∀ K, exploreNumericKeysE s = Except.ok K → ¬c ∈ K) ∧
    (∀ t' L, columnsToAssembleE s t' = Except.ok L → ¬c ∈ L) := by
  have hnum : ∀ N, numericColumnsE s = Except.ok N → ¬c ∈ N := by
    intro N hN hcN
    obtain ⟨t', h2, h3⟩ := (mem_numericE hN).mp hcN
    have heq := nodup_pair_unique hnd hmem h2
    rcases h3 with h3 | h3
    · exact ht.2.1 (heq.trans h3)
    · exact ht.2.2 (heq.trans h3)
  refine ⟨?_, hnum, ?_, ?_⟩
  · intro F hF hcF
    have h1 := (mem_factorsE hF).mp hcF
    exact ht.1 (nodup_pair_unique hnd hmem h1)
  · intro K hK
    exact hnum K hK
  · intro t' L hL hcL
    obtain ⟨N, hN, hLeq⟩ := columnsToAssembleE_ok hL
    rw [hLeq] at hcL
    rcases List.mem_append.mp hcL with hcL | hcL
    · exact hnum N hN (List.mem_of_mem_filter hcL)
    · have := (List.mem_filter.mp hcL).2
      rw [hname] at this
      cases this

/-- A state containing a `float` column, which is in neither type family. -/
def c10s : PrepState :=
  ⟨⟨[("x", "float"), ("y", "int"), ("c", "string")],
    [[Value.num 7, Value.num 1, Value.str "a"],
     [Value.num 8, Value.num 2, Value.str "b"]]⟩,
   ⟨[("x", "float"), ("y", "int"), ("c", "string")],
    [[Value.num 9, Value.num 3, Value.str "a"]]⟩,
   none, none⟩

/-- The state after a successful `prepare_to_model("y")` run on `c10s`:
the pipeline does not fail on the `float` column, it just ignores it. -/
def c10final : PrepState := (prepareToModelRun c10s "y" " ").1

theorem claim_C10_type_whitelist_witness :
    ((colNames c10s.train_df).Nodup ∧
      (("x", "float") ∈ c10s.train_df.schema) ∧
      strContains "x" (indexed_suffix ++ one_hot_suffix) = false ∧
      prepareToModelE c10s "y" " " = Except.ok c10final) ∧
    ((∀ F, factorsE c10s = Except.ok F → ¬"x" ∈ F) ∧
    (∀ N, numericColumnsE c10s = Except.ok N → ¬"x" ∈ N) ∧
    (∀ K, exploreNumericKeysE c10s = Except.ok K → ¬"x" ∈ K) ∧
    (∀ t' L, columnsToAssembleE c10s t' = Except.ok L → ¬"x" ∈ L)) :=
  ⟨⟨by decide, by decide, by decide, by decide⟩,
    @claim_C10_type_whitelist c10s "x" "float" (by decide) (by decide)
      ⟨by decide, by decide, by decide⟩ (by decide)⟩

/-- Two states with identical test dataframes but different train dataframes
for the one-hot encoder. -/
def c3sA : PrepState :=
  ⟨⟨[("c", "double")], [[Value.num 0], [Value.num 1], [Value.num 2]]⟩,
   ⟨[("c", "double")], [[Value.num 0]]⟩, none, none⟩

/-- Same test dataframe as `c3sA`, smaller train dataframe. -/
def c3sB : PrepState :=
  ⟨⟨[("c", "double")], [[Value.num 0], [Value.num 1]]⟩,
   ⟨[("c", "double")], [[Value.num 0]]⟩, none, none⟩

/-- C3, counterexample: `one_hot_encode` is NOT free of train-only fitting.
`_fit_and_transform` fits the `OneHotEncoder` estimator on the train
dataframe, and the category count observed there fixes the width of the
one-hot vectors produced on the test dataframe: two runs with the same test
dataframe but different train dataframes transform the test dataframe
differently, refuting the claim that no data-dependent state derived from
the train dataset alone determines the transformation of the test dataset. -/
theorem claim_C3_counterexample :
    c3sA.test_df = c3sB.test_df ∧
      ¬(Except.map (fun s => s.test_df) (oneHotEncodeOp c3sA ["c"] "_vec") =
        Except.map (fun s => s.test_df) (oneHotEncodeOp c3sB ["c"] "_vec")) := by
  decide

/-- C3, amended: `one_hot_encode(columns)` appends, for each input column,
exactly one new vector column named `<original><suffix>` to both the train
and the test dataframes; the encoder is fitted once on the train dataframe
and that single fitted model transforms both dataframes (so the
train-observed cardinality determines both transformations; there is no
per-dataset refitting). -/
theorem claim_C3_amended {s : PrepState} {columns : List String}
    {suffix : String} {s' : PrepState}
    (h : oneHotEncodeOp s columns suffix = Except.ok s') :
    colNames s'.train_df = colNames s.train_df ++
        columns.map (fun c => c ++ suffix) ∧
      colNames s'.test_df = colNames s.test_df ++
        columns.map (fun c => c ++ suffix) ∧
      ∃ m, fitOHE s.train_df (columns.map (fun c => (c, c ++ suffix))) =
          Except.ok m ∧
        oheTransform m s.train_df = Except.ok s'.train_df ∧
        oheTransform m s.test_df = Except.ok s'.test_df := by
  have hnames : ∀ (w : PrepState), oneHotEncodeOp s columns suffix =
      Except.ok w → colNames w.train_df = colNames s.train_df ++
        columns.map (fun c => c ++ suffix) ∧
      colNames w.test_df = colNames s.test_df ++
        columns.map (fun c => c ++ suffix) := by
    intro w hw
    obtain ⟨h1, h2, _⟩ := oneHotEncodeOp_ok hw
    constructor
    · unfold colNames
      rw [h1]
      simp
    · unfold colNames
      rw [h2]
      simp
  obtain ⟨hn1, hn2⟩ := hnames s' h
  refine ⟨hn1, hn2, ?_⟩
  unfold oneHotEncodeOp at h
  cases hfit : fitOHE s.train_df (columns.map (fun c => (c, c ++ suffix))) with
  | error e => rw [hfit] at h; simp [Bind.bind, Except.bind] at h
  | ok m =>
    rw [hfit] at h
    simp only [Bind.bind, Except.bind] at h
    cases htr : oheTransform m s.train_df with
    | error e => rw [htr] at h; cases h
    | ok tr =>
      rw [htr] at h
      dsimp only at h
      cases hte : oheTransform m s.test_df with
      | error e => rw [hte] at h; cases h
      | ok te =>
        rw [hte] at h
        cases h
        exact ⟨m, rfl, htr, hte⟩

/-- The result of one-hot encoding `c3sA`. -/
def c3res : PrepState :=
  match oneHotEncodeOp c3sA ["c"] "_vec" with
  | Except.ok s => s
  | Except.error _ => c3sA

theorem claim_C3_amended_witness :
    oneHotEncodeOp c3sA ["c"] "_vec" = Except.ok c3res ∧
      (colNames c3res.train_df = colNames c3sA.train_df ++
          (["c"] : List String).map (fun c => c ++ "_vec") ∧
        colNames c3res.test_df = colNames c3sA.test_df ++
          (["c"] : List String).map (fun c => c ++ "_vec") ∧
        ∃ m, fitOHE c3sA.train_df
            ((["c"] : List String).map (fun c => (c, c ++ "_vec"))) =
            Except.ok m ∧
          oheTransform m c3sA.train_df = Except.ok c3res.train_df ∧
          oheTransform m c3sA.test_df = Except.ok c3res.test_df) :=
  ⟨by decide, claim_C3_amended (by decide)⟩

/-- C8: when `prepare_to_model` fails, it aborts at the first failing step
and the held train/test dataframes keep the state produced by the last
successfully completed step — nothing is rolled back (and the encoded
outputs are only ever assigned by the final, select step). -/
theorem claim_C8_no_rollback {s : PrepState} {t c : String} {s' : PrepState}
    {e : String} (h : prepareToModelRun s t c = (s', some e)) :
    (stripStep s c = Except.error e ∧ s' = s) ∨
    (∃ s1, stripStep s c = Except.ok s1 ∧
      ((indexStep s1 = Except.error e ∧ s' = s1) ∨
        (∃ s2, indexStep s1 = Except.ok s2 ∧
          ((oneHotStep s2 t = Except.error e ∧ s' = s2) ∨
            (∃ s3, oneHotStep s2 t = Except.ok s3 ∧
              ((assembleStep s3 t = Except.error e ∧ s' = s3) ∨
                (∃ s4, assembleStep s3 t = Except.ok s4 ∧
                  selectStep s4 t = Except.error e ∧ s' = s4))))))) := by
  unfold prepareToModelRun at h
  cases h1 : stripStep s c with
  | error e1 =>
    rw [runStep_err h1, runStep_some, runStep_some, runStep_some,
      runStep_some] at h
    cases h
    exact Or.inl ⟨rfl, rfl⟩
  | ok s1 =>
    rw [runStep_ok h1] at h
    refine Or.inr ⟨s1, rfl, ?_⟩
    cases h2 : indexStep s1 with
    | error e2 =>
      rw [runStep_err h2, runStep_some, runStep_some, runStep_some] at h
      cases h
      exact Or.inl ⟨rfl, rfl⟩
    | ok s2 =>
      rw [runStep_ok h2] at h
      refine Or.inr ⟨s2, rfl, ?_⟩
      cases h3 : oneHotStep s2 t with
      | error e3 =>
        rw [runStep_err h3, runStep_some, runStep_some] at h
        cases h
        exact Or.inl ⟨rfl, rfl⟩
      | ok s3 =>
        rw [runStep_ok h3] at h
        refine Or.inr ⟨s3, rfl, ?_⟩
        cases h4 : assembleStep s3 t with
        | error e4 =>
          rw [runStep_err h4, runStep_some] at h
          cases h
          exact Or.inl ⟨rfl, rfl⟩
        | ok s4 =>
          rw [runStep_ok h4] at h
          refine Or.inr ⟨s4, rfl, ?_⟩
          cases h5 : selectStep s4 t with
          | error e5 =>
            rw [runStep_err h5] at h
            cases h
            exact ⟨rfl, rfl⟩
          | ok s5 =>
            rw [runStep_ok h5] at h
            cases h

/-- A pair whose test dataframe holds a factor value absent from the train
dataframe, so the index step fails on the test dataframe. -/
def c8s : PrepState :=
  ⟨⟨[("color", "string"), ("size", "int")],
    [[Value.str " red ", Value.num 1],
     [Value.str "blue", Value.num 2]]⟩,
   ⟨[("color", "string"), ("size", "int")],
    [[Value.str "blue", Value.num 5],
     [Value.str "green", Value.num 6]]⟩,
   none, none⟩

/-- The partial state a failed `prepare_to_model("size")` leaves on `c8s`:
the stripped dataframes of the completed first step. -/
def c8state : PrepState := (prepareToModelRun c8s "size" " ").1

theorem claim_C8_no_rollback_witness :
    (prepareToModelRun c8s "size" " " = (c8state, some "Unseen label") ∧
      ¬c8state = c8s ∧
      c8state.train_encoded_df = none ∧ c8state.test_encoded_df = none) ∧
    ((stripStep c8s " " = Except.error "Unseen label" ∧ c8state = c8s) ∨
    (∃ s1, stripStep c8s " " = Except.ok s1 ∧
      ((indexStep s1 = Except.error "Unseen label" ∧ c8state = s1) ∨
        (∃ s2, indexStep s1 = Except.ok s2 ∧
          ((oneHotStep s2 "size" = Except.error "Unseen label" ∧
              c8state = s2) ∨
            (∃ s3, oneHotStep s2 "size" = Except.ok s3 ∧
              ((assembleStep s3 "size" = Except.error "Unseen label" ∧
                  c8state = s3) ∨
                (∃ s4, assembleStep s3 "size" = Except.ok s4 ∧
                  selectStep s4 "size" = Except.error "Unseen label" ∧
                  c8state = s4)))))))) :=
  ⟨⟨by decide, by decide, by decide, by decide⟩,
    claim_C8_no_rollback (by decide)⟩

/-! ## `explore_factors` lemmas -/

theorem mem_insertBy {α : Type} (le : α → α → Bool) (x : α) :
    ∀ (l : List α) (a : α), a ∈ insertBy le x l ↔ a = x ∨ a ∈ l := by
  intro l
  induction l with
  | nil => intro a; simp [insertBy]
  | cons y ys ih =>
    intro a
    unfold insertBy
    split
    · simp
    · rw [List.mem_cons, ih a, List.mem_cons]
      tauto

theorem mem_sortBy {α : Type} (le : α → α → Bool) :
    ∀ (l : List α) (a : α), a ∈ sortBy le l ↔ a ∈ l := by
  intro l
  induction l with
  | nil => intro a; rfl
  | cons x xs ih =>
    intro a
    unfold sortBy
    rw [mem_insertBy, ih a, List.mem_cons]

theorem mem_dedupBy {α : Type} [DecidableEq α] :
    ∀ (l seen : List α) (a : α), a ∈ dedupBy seen l ↔ a ∈ l ∧ ¬a ∈ seen := by
  intro l
  induction l with
  | nil => intro seen a; simp [dedupBy]
  | cons x xs ih =>
    intro seen a
    unfold dedupBy
    split
    · rw [ih seen a, List.mem_cons]
      constructor
      · tauto
      · intro ⟨h1, h2⟩
        rcases h1 with h1 | h1
        · subst h1; exact absurd (by assumption) h2
        · exact ⟨h1, h2⟩
    · rw [List.mem_cons, List.mem_cons, ih (x :: seen) a, List.mem_cons]
      constructor
      · intro hh
        rcases hh with hh | ⟨hh1, hh2⟩
        · subst hh
          exact ⟨Or.inl rfl, by assumption⟩
        · exact ⟨Or.inr hh1, fun hc => hh2 (Or.inr hc)⟩
      · intro ⟨h1, h2⟩
        rcases h1 with h1 | h1
        · exact Or.inl h1
        · by_cases hax : a = x
          · exact Or.inl hax
          · exact Or.inr ⟨h1, fun hc => (hc.elim hax fun hc' => h2 hc')⟩

theorem mem_distinctL {α : Type} [DecidableEq α] {l : List α} {a : α} :
    a ∈ distinctL l ↔ a ∈ l := by
  unfold distinctL
  rw [mem_dedupBy]
  simp

theorem countOcc_pos {α : Type} [DecidableEq α] {vs : List α} {v : α} :
    v ∈ vs ↔ 0 < countOcc vs v := by
  unfold countOcc
  induction vs with
  | nil => simp
  | cons x xs ih =>
    rw [List.mem_cons]
    by_cases hx : x = v
    · subst hx
      simp [List.filter]
    · rw [List.filter]
      have : decide (x = v) = false := by simpa using hx
      rw [this]
      rw [ih]
      constructor
      · intro hh
        rcases hh with hh | hh
        · exact absurd hh.symm hx
        · exact hh
      · exact Or.inr

theorem mem_groupCount {vs : List Value} {p : Value × Nat} :
    p ∈ groupCount vs ↔ p.1 ∈ vs ∧ p.2 = countOcc vs p.1 := by
  unfold groupCount
  rw [mem_sortBy, List.mem_map]
  constructor
  · intro ⟨v, hv, hp⟩
    rw [← hp]
    exact ⟨mem_distinctL.mp hv, rfl⟩
  · intro ⟨h1, h2⟩
    refine ⟨p.1, mem_distinctL.mpr h1, ?_⟩
    obtain ⟨a, b⟩ := p
    simp only at h2
    rw [h2]

theorem lookupV_groupCount_mem {vs : List Value} {v : Value} (h : v ∈ vs) :
    lookupV (groupCount vs) v = some (countOcc vs v) := by
  unfold lookupV
  cases hf : (groupCount vs).find? (fun p => decide (p.1 = v)) with
  | none =>
    exfalso
    have hmem : ((v, countOcc vs v) : Value × Nat) ∈ groupCount vs :=
      mem_groupCount.mpr ⟨h, rfl⟩
    have := List.find?_eq_none.mp hf _ hmem
    simp at this
  | some p =>
    have h1 := List.find?_some hf
    have h2 := List.mem_of_find?_eq_some hf
    have h3 := mem_groupCount.mp h2
    have h4 : p.1 = v := of_decide_eq_true h1
    rw [Option.map_some']
    rw [h3.2, h4]

theorem lookupV_groupCount_none {vs : List Value} {v : Value} (h : ¬v ∈ vs) :
    lookupV (groupCount vs) v = none := by
  unfold lookupV
  cases hf : (groupCount vs).find? (fun p => decide (p.1 = v)) with
  | none => rfl
  | some p =>
    exfalso
    have h1 := List.find?_some hf
    have h2 := List.mem_of_find?_eq_some hf
    have h3 := mem_groupCount.mp h2
    have h4 : p.1 = v := of_decide_eq_true h1
    rw [h4] at h3
    exact h h3.1

theorem binarize_lookup (vs : List Value) (v : Value) :
    binarizeCell (lookupV (groupCount vs) v) =
      (if 0 < countOcc vs v then 1 else 0) := by
  by_cases hv : v ∈ vs
  · rw [lookupV_groupCount_mem hv]
    rfl
  · rw [lookupV_groupCount_none hv]
    unfold binarizeCell
    have : ¬0 < countOcc vs v := fun hc => hv (countOcc_pos.mpr hc)
    rw [if_neg this]

/-- C9: `explore_factors` yields, for every factor column, a table keyed by
the column's distinct values across both datasets whose `in_train`/`in_test`
entries are 1 exactly when the value's count in that dataset is positive and
0 otherwise (a value absent from one dataset gets 0 there). -/
theorem claim_C9_explore_factors {s : PrepState} {F : List String} {c : String}
    {ex : List (String × List (Value × Nat × Nat))} {trv tev : List Value}
    (hF : factorsE s = Except.ok F) (hc : c ∈ F)
    (hex : exploreFactorsE s = Except.ok ex)
    (htr : colValuesE s.train_df c = Except.ok trv)
    (hte : colValuesE s.test_df c = Except.ok tev) :
    ∃ tbl, (c, tbl) ∈ ex ∧
      (∀ v itr ite, (v, itr, ite) ∈ tbl →
        itr = (if 0 < countOcc trv v then 1 else 0) ∧
        ite = (if 0 < countOcc tev v then 1 else 0)) ∧
      (∀ v, v ∈ trv ∨ v ∈ tev → ∃ itr ite, (v, itr, ite) ∈ tbl) := by
  unfold exploreFactorsE at hex
  rw [hF] at hex
  simp only [Bind.bind, Except.bind] at hex
  have hfa := mapM_ok_forall2 _ _ _ hex
  obtain ⟨y, hy, hyc⟩ := forall2_mem_left hfa hc
  rw [htr] at hyc
  simp only [Bind.bind, Except.bind] at hyc
  rw [hte] at hyc
  dsimp only at hyc
  cases hyc
  refine ⟨exploreTable trv tev, hy, ?_, ?_⟩
  · intro v itr ite hmem
    unfold exploreTable at hmem
    obtain ⟨p, hp, hpe⟩ := List.mem_map.mp hmem
    unfold joinCountTable at hp
    obtain ⟨k, _, hk⟩ := List.mem_map.mp hp
    rw [← hk] at hpe
    have hv : k = v := congrArg Prod.fst hpe
    have hitr : binarizeCell (lookupV (groupCount trv) k) = itr :=
      congrArg (fun q => q.2.1) hpe
    have hite : binarizeCell (lookupV (groupCount tev) k) = ite :=
      congrArg (fun q => q.2.2) hpe
    subst hv
    rw [← hitr, ← hite, binarize_lookup, binarize_lookup]
    exact ⟨rfl, rfl⟩
  · intro v hv
    have hkey : v ∈ (groupCount trv).map Prod.fst ++
        ((groupCount tev).map Prod.fst).filter
          (fun w => decide (¬w ∈ (groupCount trv).map Prod.fst)) := by
      by_cases hvtr : v ∈ (groupCount trv).map Prod.fst
      · exact List.mem_append_left _ hvtr
      · rcases hv with hv | hv
        · exact absurd (List.mem_map.mpr
            ⟨(v, countOcc trv v), mem_groupCount.mpr ⟨hv, rfl⟩, rfl⟩) hvtr
        · refine List.mem_append_right _ (List.mem_filter.mpr ⟨?_, ?_⟩)
          · exact List.mem_map.mpr
              ⟨(v, countOcc tev v), mem_groupCount.mpr ⟨hv, rfl⟩, rfl⟩
          · simpa using hvtr
    refine ⟨binarizeCell (lookupV (groupCount trv) v),
      binarizeCell (lookupV (groupCount tev) v), ?_⟩
    unfold exploreTable joinCountTable
    refine List.mem_map.mpr ⟨(v, lookupV (groupCount trv) v,
      lookupV (groupCount tev) v), ?_, rfl⟩
    exact List.mem_map.mpr ⟨v, hkey, rfl⟩

/-- The spec's concrete exploration example: train colors red, blue, red;
test colors blue, green. -/
def c9s : PrepState :=
  ⟨⟨[("color", "string"), ("size", "int")],
    [[Value.str "red", Value.num 1],
     [Value.str "blue", Value.num 2],
     [Value.str "red", Value.num 3]]⟩,
   ⟨[("color", "string"), ("size", "int")],
    [[Value.str "blue", Value.num 4],
     [Value.str "green", Value.num 5]]⟩,
   none, none⟩

/-- The train column values of the example. -/
def c9trv : List Value := [Value.str "red", Value.str "blue", Value.str "red"]

/-- The test column values of the example. -/
def c9tev : List Value := [Value.str "blue", Value.str "green"]

theorem claim_C9_explore_factors_witness :
    (factorsE c9s = Except.ok ["color"] ∧
      colValuesE c9s.train_df "color" = Except.ok c9trv ∧
      colValuesE c9s.test_df "color" = Except.ok c9tev ∧
      exploreFactorsE c9s = Except.ok [("color", exploreTable c9trv c9tev)] ∧
      (Value.str "red", 1, 0) ∈ exploreTable c9trv c9tev ∧
      (Value.str "blue", 1, 1) ∈ exploreTable c9trv c9tev ∧
      (Value.str "green", 0, 1) ∈ exploreTable c9trv c9tev) ∧
    ∃ tbl, ("color", tbl) ∈ [("color", exploreTable c9trv c9tev)] ∧
      (∀ v itr ite, (v, itr, ite) ∈ tbl →
        itr = (if 0 < countOcc c9trv v then 1 else 0) ∧
        ite = (if 0 < countOcc c9tev v then 1 else 0)) ∧
      (∀ v, v ∈ c9trv ∨ v ∈ c9tev → ∃ itr ite, (v, itr, ite) ∈ tbl) :=
  ⟨⟨by decide, by decide, by decide, by decide, by decide, by decide,
      by decide⟩,
    @claim_C9_explore_factors c9s ["color"] "color"
      [("color", exploreTable c9trv c9tev)] c9trv c9tev
      (by decide) (by decide) (by decide) (by decide) (by decide)⟩

/-! ## String marker lemmas for the assembly column scan -/

theorem listLeads_self : ∀ x : List Char, listLeads x x = true := by
  intro x
  induction x with
  | nil => rfl
  | cons a as ih => simp [listLeads, ih]

theorem listLeads_self_append : ∀ x y : List Char, listLeads x (x ++ y) = true := by
  intro x y
  induction x with
  | nil => rfl
  | cons a as ih => simp [listLeads, ih]

theorem listHasSeq_append_self : ∀ a n : List Char, listHasSeq (a ++ n) n = true := by
  intro a n
  induction a with
  | nil =>
    cases n with
    | nil => rfl
    | cons c t => simp [listHasSeq, listLeads_self]
  | cons x a' ih => simp [listHasSeq, ih]

theorem strEndsWith_append_self (a t : String) : strEndsWith (a ++ t) t = true := by
  show listLeads t.data.reverse (a ++ t).data.reverse = true
  rw [String.data_append, List.reverse_append]
  exact listLeads_self_append _ _

theorem strContains_append_self (a n : String) : strContains (a ++ n) n = true := by
  show listHasSeq (a ++ n).data n.data = true
  rw [String.data_append]
  exact listHasSeq_append_self _ _

theorem filter_map_pair_nil {d : String} {types : List String}
    {f : String → String} (hd : ¬d ∈ types) (l : List String) :
    (l.map (fun c => (f c, d))).filter (fun p => p.2 ∈ types) = [] := by
  induction l with
  | nil => rfl
  | cons a l' ih =>
    rw [List.map_cons, List.filter_cons]
    simp only [hd]
    simpa using ih

theorem filter_map_pair_all {d : String} {types : List String}
    {f : String → String} (hd : d ∈ types) (l : List String) :
    (l.map (fun c => (f c, d))).filter (fun p => p.2 ∈ types) =
      l.map (fun c => (f c, d)) := by
  induction l with
  | nil => rfl
  | cons a l' ih =>
    rw [List.map_cons, List.filter_cons]
    simp only [hd]
    simpa using ih

theorem filter_cats_nil (target : String) (l : List String) :
    (l.map (fun f => f ++ indexed_suffix)).filter
      (fun c => decide ¬c = target && !strEndsWith c indexed_suffix) = [] := by
  induction l with
  | nil => rfl
  | cons a l' ih =>
    rw [List.map_cons, List.filter_cons]
    rw [strEndsWith_append_self]
    simpa using ih

/-- The claim's description of the list passed to feature assembly: the
numeric columns except the target and except names ending in the indexed
suffix, followed by exactly the columns the one-hot step produced.  Stated
from the claim's wording, for comparison with the code's
`_columns_to_assemble`. -/
def specColumnsToAssemble (s : PrepState) (oneHotOutputs : List String)
    (targetCol : String) : Except String (List String) := do
  let nums ← numericColumnsE s
  Except.ok (nums.filter
    (fun c => decide ¬c = targetCol && !strEndsWith c indexed_suffix) ++
    oneHotOutputs)

/-- A dataframe with an original numeric column whose name already contains
the `_cat_vec` marker. -/
def c7xdf : DataFrame :=
  ⟨[("a_cat_vec", "int"), ("y", "int"), ("f", "string")],
   [[Value.num 1, Value.num 2, Value.str "u"]]⟩

/-- The state built on that pair. -/
def c7xs : PrepState := ⟨c7xdf, c7xdf, none, none⟩

/-- State after the strip step of `prepare_to_model("y")` on `c7xs`. -/
def c7xs1 : PrepState :=
  match stripStep c7xs " " with
  | Except.ok s => s
  | Except.error _ => c7xs

/-- State after the index step. -/
def c7xs2 : PrepState :=
  match indexStep c7xs1 with
  | Except.ok s => s
  | Except.error _ => c7xs1

/-- State after the one-hot step. -/
def c7xs3 : PrepState :=
  match oneHotStep c7xs2 "y" with
  | Except.ok s => s
  | Except.error _ => c7xs2

/-- C7, counterexample: at the assembly step of a real `prepare_to_model`
run, the code's `_columns_to_assemble` picks every train column whose NAME
CONTAINS `_cat_vec`, not the columns the one-hot step produced.  With an
original numeric column named `a_cat_vec`, the code's list contains
`a_cat_vec` twice (once as a numeric column and once from the name scan),
while the list described by the claim — numeric columns except the target
and `_cat`-enders, followed by all one-hot-encoded columns — contains it
once, so the claim's "exactly" fails. -/
theorem claim_C7_counterexample :
    stripStep c7xs " " = Except.ok c7xs1 ∧
      indexStep c7xs1 = Except.ok c7xs2 ∧
      oneHotStep c7xs2 "y" = Except.ok c7xs3 ∧
      oneHotEncodeColumnsE c7xs2 "y" = Except.ok ["f_cat"] ∧
      columnsToAssembleE c7xs3 "y" =
        Except.ok ["a_cat_vec", "a_cat_vec", "f_cat_vec"] ∧
      specColumnsToAssemble c7xs3 ["f_cat_vec"] "y" =
        Except.ok ["a_cat_vec", "f_cat_vec"] ∧
      ¬columnsToAssembleE c7xs3 "y" =
        specColumnsToAssemble c7xs3 ["f_cat_vec"] "y" := by
  decide

/-- C7, amended: in a successful `prepare_to_model` run whose original
column names do not contain the `_cat_vec` marker (nor produce it by
appending `_cat` to a factor name), the list `_columns_to_assemble` passes
to feature assembly is exactly: the original numeric columns other than the
target and those ending in `_cat`, followed by the one-hot output columns
`<factor>_cat_vec` of every factor except the target — each group in
schema-scan order.  (In general the second group is the name scan for
`_cat_vec`, see the counterexample.) -/
theorem claim_C7_amended {s0 s1 s2 s3 : PrepState} {target ts : String}
    {F N : List String}
    (hsch : s0.train_df.schema = s0.test_df.schema)
    (hnd : (colNames s0.train_df).Nodup)
    (hF : factorsE s0 = Except.ok F)
    (hN : numericColumnsE s0 = Except.ok N)
    (hwtr : s0.train_df.WF = true) (hwte : s0.test_df.WF = true)
    (h1 : stripStep s0 ts = Except.ok s1)
    (h2 : indexStep s1 = Except.ok s2)
    (h3 : oneHotStep s2 target = Except.ok s3)
    (hclean : ∀ c ∈ colNames s0.train_df,
      strContains c (indexed_suffix ++ one_hot_suffix) = false)
    (hcleancat : ∀ f ∈ F,
      strContains (f ++ indexed_suffix) (indexed_suffix ++ one_hot_suffix) =
        false) :
    columnsToAssembleE s3 target = Except.ok
      (N.filter (fun c => decide ¬c = target && !strEndsWith c indexed_suffix) ++
        (F.filter (fun f => decide ¬f = target)).map
          (fun f => f ++ indexed_suffix ++ one_hot_suffix)) := by
  -- step 1 leaves the schemas unchanged
  obtain ⟨F', hF', hso⟩ := stripStep_parts h1
  rw [hF] at hF'
  cases hF'
  obtain ⟨F'', hF'', _, hfold⟩ := stripColumnsOp_parts hso
  rw [hF] at hF''
  cases hF''
  have hndte : (colNames s0.test_df).Nodup := by
    unfold colNames
    rw [← hsch]
    exact hnd
  have hty : ∀ c ∈ F, findType s0.train_df.schema c = some "string" ∧
      findType s0.test_df.schema c = some "string" := by
    intro c hc
    exact ⟨findType_of_mem_nodup hnd ((mem_factorsE hF).mp hc),
      findType_of_mem_nodup hndte ((mem_factorsE_test hF).mp hc)⟩
  obtain ⟨hs1tr, hs1te⟩ := stripFold_schema hfold hty
  obtain ⟨_, _, _, hwf1, hwf2, _, _⟩ := stripFold_ok hfold
  -- step 2 appends `<factor>_cat` double columns
  obtain ⟨F1, hF1, hsio⟩ := indexStep_parts h2
  have hF1F : F1 = F := by
    obtain ⟨hF1eq, _⟩ := factorsE_ok hF1
    obtain ⟨hFeq, _⟩ := factorsE_ok hF
    rw [hF1eq, hs1tr, ← hFeq]
  subst hF1F
  obtain ⟨hsch2tr, hsch2te, _, _, hwf2tr, hwf2te, _, _, _⟩ :=
    stringIndexOp_ok hsio (hwf1 hwtr) (hwf2 hwte)
  -- step 3 appends `<factor>_cat_vec` vector columns for non-target factors
  obtain ⟨cols2, hcols2E, hohe⟩ := oneHotStep_parts h3
  obtain ⟨F2, hF2, hcols2eq⟩ := oneHotEncodeColumnsE_ok hcols2E
  have hF2F : F2 = F1 := by
    obtain ⟨hF2eq, _⟩ := factorsE_ok hF2
    obtain ⟨hFeq, _⟩ := factorsE_ok hF1
    rw [hF2eq, hsch2tr, hs1tr]
    rw [List.filter_append, List.map_append]
    rw [filter_map_pair_nil (by decide : ¬"double" ∈ (["string"] : List String))]
    rw [hFeq, hs1tr]
    simp
  rw [hF2F] at hcols2eq
  subst hcols2eq
  obtain ⟨hsch3tr, hsch3te, _, _, _, _, _, _⟩ := oneHotEncodeOp_ok hohe
  -- the numeric columns of the final state
  obtain ⟨hNtr, hNte⟩ := getColsByTypes_ok hN
  have htrlist : (s3.train_df.schema.filter
      (fun p => p.2 ∈ (["double", "int"] : List String))).map Prod.fst =
      N ++ F1.map (fun f => f ++ indexed_suffix) := by
    rw [hsch3tr, hsch2tr, hs1tr]
    rw [List.filter_append, List.filter_append, List.map_append,
      List.map_append]
    rw [filter_map_pair_nil
      (by decide : ¬"vector" ∈ (["double", "int"] : List String))]
    rw [filter_map_pair_all
      (by decide : "double" ∈ (["double", "int"] : List String))]
    rw [← hNtr]
    rw [List.map_map]
    simp
  have htelist : (s3.test_df.schema.filter
      (fun p => p.2 ∈ (["double", "int"] : List String))).map Prod.fst =
      N ++ F1.map (fun f => f ++ indexed_suffix) := by
    rw [hsch3te, hsch2te, hs1te]
    rw [List.filter_append, List.filter_append, List.map_append,
      List.map_append]
    rw [filter_map_pair_nil
      (by decide : ¬"vector" ∈ (["double", "int"] : List String))]
    rw [filter_map_pair_all
      (by decide : "double" ∈ (["double", "int"] : List String))]
    rw [hNte]
    rw [List.map_map]
    simp
  have hN3 : numericColumnsE s3 = Except.ok
      (N ++ F1.map (fun f => f ++ indexed_suffix)) := by
    unfold numericColumnsE getColsByTypes
    dsimp only
    rw [htrlist, htelist, if_pos rfl]
  -- the name scan picks exactly the one-hot outputs
  have hscan : (colNames s3.train_df).filter
      (fun c => strContains c (indexed_suffix ++ one_hot_suffix)) =
      (F1.filter (fun f => decide ¬f = target)).map
        (fun f => f ++ indexed_suffix ++ one_hot_suffix) := by
    unfold colNames
    rw [hsch3tr, hsch2tr, hs1tr]
    rw [List.map_append, List.map_append, List.filter_append,
      List.filter_append]
    have hA : (s0.train_df.schema.map Prod.fst).filter
        (fun c => strContains c (indexed_suffix ++ one_hot_suffix)) = [] := by
      refine List.filter_eq_nil_iff.mpr ?_
      intro a ha
      simp [hclean a ha]
    have hB : ((F1.map (fun c => (c ++ indexed_suffix, "double"))).map
        Prod.fst).filter
        (fun c => strContains c (indexed_suffix ++ one_hot_suffix)) = [] := by
      rw [List.map_map]
      rw [List.filter_map]
      refine List.map_eq_nil_iff.mpr ?_
      refine List.filter_eq_nil_iff.mpr ?_
      intro a ha
      simp [hcleancat a ha]
    have hC : (((F1.filter (fun f => decide ¬f = target)).map
        (fun f => f ++ indexed_suffix)).map
          (fun c => (c ++ one_hot_suffix, "vector")) |>.map Prod.fst).filter
        (fun c => strContains c (indexed_suffix ++ one_hot_suffix)) =
        (F1.filter (fun f => decide ¬f = target)).map
          (fun f => f ++ indexed_suffix ++ one_hot_suffix) := by
      rw [List.map_map, List.map_map]
      refine Eq.trans (List.filter_eq_self.mpr ?_) ?_
      · intro a ha
        obtain ⟨f, _, hfa⟩ := List.mem_map.mp ha
        rw [← hfa]
        show strContains (f ++ indexed_suffix ++ one_hot_suffix)
          (indexed_suffix ++ one_hot_suffix) = true
        rw [String.append_assoc]
        exact strContains_append_self _ _
      · rfl
    rw [hA, hB, hC]
    rfl
  -- put the pieces together
  unfold columnsToAssembleE
  rw [hN3]
  simp only [Bind.bind, Except.bind]
  rw [List.filter_append, filter_cats_nil, List.append_nil, hscan]

/-- State after the strip step of `prepare_to_model("size")` on the clean
concrete pair. -/
def c7ws1 : PrepState :=
  match stripStep c1s0 " " with
  | Except.ok s => s
  | Except.error _ => c1s0

/-- State after the index step. -/
def c7ws2 : PrepState :=
  match indexStep c7ws1 with
  | Except.ok s => s
  | Except.error _ => c7ws1

/-- State after the one-hot step. -/
def c7ws3 : PrepState :=
  match oneHotStep c7ws2 "size" with
  | Except.ok s => s
  | Except.error _ => c7ws2

theorem claim_C7_amended_witness :
    (c1s0.train_df.schema = c1s0.test_df.schema ∧
      (colNames c1s0.train_df).Nodup ∧
      factorsE c1s0 = Except.ok ["color"] ∧
      numericColumnsE c1s0 = Except.ok ["size"] ∧
      c1s0.train_df.WF = true ∧ c1s0.test_df.WF = true ∧
      stripStep c1s0 " " = Except.ok c7ws1 ∧
      indexStep c7ws1 = Except.ok c7ws2 ∧
      oneHotStep c7ws2 "size" = Except.ok c7ws3 ∧
      (∀ c ∈ colNames c1s0.train_df,
        strContains c (indexed_suffix ++ one_hot_suffix) = false) ∧
      (∀ f ∈ (["color"] : List String),
        strContains (f ++ indexed_suffix) (indexed_suffix ++ one_hot_suffix) =
          false)) ∧
    columnsToAssembleE c7ws3 "size" = Except.ok
      ((["size"] : List String).filter
          (fun c => decide ¬c = "size" && !strEndsWith c indexed_suffix) ++
        ((["color"] : List String).filter (fun f => decide ¬f = "size")).map
          (fun f => f ++ indexed_suffix ++ one_hot_suffix)) :=
  ⟨⟨by decide, by decide, by decide, by decide, by decide, by decide,
      by decide, by decide, by decide, by decide, by decide⟩,
    @claim_C7_amended c1s0 c7ws1 c7ws2 c7ws3 "size" " " ["color"] ["size"]
      (by decide) (by decide) (by decide) (by decide) (by decide) (by decide)
      (by decide) (by decide) (by decide) (by decide) (by decide)⟩
